import Mathlib

/-!
# Snowflake identifier generator

A shallow embedding of `internal/infra/snowflake/generator.go`, of the batch
use case `internal/usecase/id_generator.go` and of the gRPC method
`GenerateIDs` of `internal/handler/grpc/handler.go`.

* Go `int64` values are integers in `[-2^63, 2^63)`.  Every arithmetic or
  bitwise operation of the source is an explicit function here (`add64`,
  `sub64`, `shl64`, `sar64`, `and64`, `or64`) that works on the two's
  complement image modulo `2^64` and returns the signed representative.
* The wall clock is a trace: the list of values that successive calls of
  `time.Now().UnixNano()` return.  `timeGen` consumes one reading.  A
  computation that asks for a reading the trace does not hold has not returned
  within the trace, which is the result `none`.
* The mutex of `Generator` serialises the calls of `NextID`; one call is one
  state transition `Generator × Clock → Generator × Clock`.
* `ParseID` returns a record of the integer fields of the Go map; the
  `datetime` string, rendered by the `time` library, is not part of the model.
* A function that can stop with a run-time fault of Go (a negative length given
  to `make`, a nil pointer dereferenced) returns an `Exec` value.
-/

namespace Snowflake

/-! ## 64-bit two's complement arithmetic -/

/-- The unsigned 64-bit image of an integer. -/
def toUint64 (x : Int) : Nat := (x % 2 ^ 64).toNat

/-- The signed value of a 64-bit word. -/
def toInt64 (n : Nat) : Int :=
  if n % 2 ^ 64 < 2 ^ 63 then ((n % 2 ^ 64 : Nat) : Int) else ((n % 2 ^ 64 : Nat) : Int) - 2 ^ 64

/-- Reduction of an integer to the `int64` range. -/
def wrap64 (x : Int) : Int := toInt64 (toUint64 x)

/-- An integer is an `int64` value. -/
def isInt64 (x : Int) : Prop := -2 ^ 63 ≤ x ∧ x < 2 ^ 63

instance (x : Int) : Decidable (isInt64 x) := by
  unfold isInt64; exact inferInstance

/-- Go `a + b` on `int64`. -/
def add64 (a b : Int) : Int := wrap64 (a + b)

/-- Go `a - b` on `int64`. -/
def sub64 (a b : Int) : Int := wrap64 (a - b)

/-- Go `a << k` on `int64`. -/
def shl64 (a : Int) (k : Nat) : Int := toInt64 (toUint64 a <<< k)

/-- Go `a >> k` on `int64`: the arithmetic (sign-propagating) shift. -/
def sar64 (a : Int) (k : Nat) : Int := wrap64 a >>> k

/-- Go `a & b` on `int64`. -/
def and64 (a b : Int) : Int := toInt64 (toUint64 a &&& toUint64 b)

/-- Go `a | b` on `int64`. -/
def or64 (a b : Int) : Int := toInt64 (toUint64 a ||| toUint64 b)

/-- Go `a / b` on `int64`: the quotient truncated toward zero. -/
def div64 (a b : Int) : Int := wrap64 (Int.tdiv (wrap64 a) (wrap64 b))

/-! ## Constants (generator.go, lines 9-23) -/

def TwitterEpoch : Int := 1288834974657

def DatacenterIdBits : Nat := 5
def MachineIdBits : Nat := 5
def SequenceBits : Nat := 12

def MaxDatacenterId : Int := ((1 <<< DatacenterIdBits : Nat) : Int) - 1
def MaxMachineId : Int := ((1 <<< MachineIdBits : Nat) : Int) - 1
def MaxSequence : Int := ((1 <<< SequenceBits : Nat) : Int) - 1

def MachineIdShift : Nat := SequenceBits
def DatacenterIdShift : Nat := SequenceBits + MachineIdBits
def TimestampShift : Nat := SequenceBits + MachineIdBits + DatacenterIdBits

/-! ## Data model -/

/-- The fields of `Generator` other than the mutex. -/
structure Generator where
  datacenterId : Int
  machineId : Int
  sequence : Int
  lastTime : Int
  deriving DecidableEq, Repr

/-- The errors built with `fmt.Errorf`, with the argument of the `%d` verb. -/
inductive Error where
  | datacenterIdRange (max : Int)
  | machineIdRange (max : Int)
  | clockMovedBackwards (ms : Int)
  deriving DecidableEq, Repr

/-- The message `fmt.Errorf` renders: the format string with `%d` replaced by
the decimal numeral of the argument. -/
def Error.message : Error → String
  | .datacenterIdRange max => "datacenter ID must be between 0 and " ++ toString max
  | .machineIdRange max => "machine ID must be between 0 and " ++ toString max
  | .clockMovedBackwards ms =>
    "clock moved backwards. Refusing to generate ID for " ++ toString ms ++ " milliseconds"

/-- The wall clock: the values successive `time.Now().UnixNano()` calls return. -/
abbrev Clock := List Int

/-- The fields of the map `ParseID` returns (`datetime` apart). -/
structure Parsed where
  id : Int
  timestamp : Int
  datacenter_id : Int
  machine_id : Int
  sequence : Int
  deriving DecidableEq, Repr

/-! ## Operations -/

/-- Function `NewGenerator` (generator.go, lines 33-48). -/
def NewGenerator (datacenterId machineId : Int) : Except Error Generator :=
  if datacenterId < 0 ∨ datacenterId > MaxDatacenterId then
    .error (.datacenterIdRange MaxDatacenterId)
  else if machineId < 0 ∨ machineId > MaxMachineId then
    .error (.machineIdRange MaxMachineId)
  else
    .ok { datacenterId := datacenterId, machineId := machineId, sequence := 0, lastTime := -1 }

/-- The millisecond value `UnixNano() / 1e6` of one clock reading. -/
def millis (unixNano : Int) : Int := div64 unixNano 1000000

/-- Function `timeGen` (generator.go, lines 80-82): read the clock once. -/
def timeGen : Clock → Option (Int × Clock)
  | [] => none
  | unixNano :: rest => some (millis unixNano, rest)

/-- Function `tilNextMillis` (generator.go, lines 84-90): read the clock until the
millisecond value exceeds `lastTimestamp`. -/
def tilNextMillis (lastTimestamp : Int) : Clock → Option (Int × Clock)
  | [] => none
  | unixNano :: rest =>
    if millis unixNano ≤ lastTimestamp then tilNextMillis lastTimestamp rest
    else some (millis unixNano, rest)

/-- The identifier expression of `NextID` (generator.go, lines 73-76). -/
def packID (timestamp datacenterId machineId sequence : Int) : Int :=
  or64 (or64 (or64 (shl64 (sub64 timestamp TwitterEpoch) TimestampShift)
    (shl64 datacenterId DatacenterIdShift)) (shl64 machineId MachineIdShift)) sequence

/-- The result of one `NextID` call: the returned pair `(id, err)`, the
generator after the call and the rest of the clock trace. -/
structure Step where
  id : Int
  err : Option Error
  gen : Generator
  clock : Clock
  deriving DecidableEq, Repr

/-- Lines 71-77 of `NextID`: store the timestamp and build the identifier. -/
def emit (g : Generator) (sequence timestamp : Int) (clock : Clock) : Step :=
  { id := packID timestamp g.datacenterId g.machineId sequence
    err := none
    gen := { g with sequence := sequence, lastTime := timestamp }
    clock := clock }

/-- Function `NextID` (generator.go, lines 50-78). -/
def NextID (g : Generator) (clock : Clock) : Option Step :=
  match timeGen clock with
  | none => none
  | some (timestamp, clock) =>
    if timestamp < g.lastTime then
      some { id := 0, err := some (.clockMovedBackwards (sub64 g.lastTime timestamp)),
             gen := g, clock := clock }
    else if timestamp = g.lastTime then
      let sequence := and64 (add64 g.sequence 1) MaxSequence
      if sequence = 0 then
        match tilNextMillis g.lastTime clock with
        | none => none
        | some (timestamp, clock) => some (emit g sequence timestamp clock)
      else
        some (emit g sequence timestamp clock)
    else
      some (emit g 0 timestamp clock)

/-- Function `ParseID` (generator.go, lines 92-106). -/
def ParseID (id : Int) : Parsed :=
  { id := id
    timestamp := add64 (sar64 id TimestampShift) TwitterEpoch
    datacenter_id := and64 (sar64 id DatacenterIdShift) (((1 <<< DatacenterIdBits : Nat) : Int) - 1)
    machine_id := and64 (sar64 id MachineIdShift) (((1 <<< MachineIdBits : Nat) : Int) - 1)
    sequence := and64 id (((1 <<< SequenceBits : Nat) : Int) - 1) }

/-- N sequential `NextID` calls on one generator and one clock: the result of
each call in order.  The list ends early when a call does not return. -/
def calls : Nat → Generator → Clock → List Step
  | 0, _, _ => []
  | n + 1, g, clock =>
    match NextID g clock with
    | none => []
    | some s => s :: calls n s.gen s.clock

/-- The calls that returned an identifier (`err == nil`). -/
def successes (steps : List Step) : List Step := steps.filter (fun s => s.err = none)

/-- A generator state is reachable from `NewGenerator d m` by `NextID` calls,
whatever their clocks and results. -/
inductive Reachable (d m : Int) : Generator → Prop
  | init {g : Generator} : NewGenerator d m = .ok g → Reachable d m g
  | next {g : Generator} {clock : Clock} {s : Step} :
      Reachable d m g → NextID g clock = some s → Reachable d m s.gen

/-- Every reading of the clock has a relative timestamp of 41 bits. -/
def InRange (clock : Clock) : Prop :=
  ∀ n ∈ clock, 0 ≤ millis n - TwitterEpoch ∧ millis n - TwitterEpoch < 2 ^ 41

/-- The invariant of the generator. -/
structure Inv (d m : Int) (g : Generator) : Prop where
  dc : g.datacenterId = d
  mc : g.machineId = m
  d0 : 0 ≤ d
  d31 : d ≤ 31
  m0 : 0 ≤ m
  m31 : m ≤ 31
  s0 : 0 ≤ g.sequence
  s4095 : g.sequence ≤ 4095
  tlo : -9223372036854 ≤ g.lastTime
  thi : g.lastTime ≤ 9223372036854

/-- The order of the pairs `(lastTime, sequence)`, as one integer. -/
def key (g : Generator) : Int := g.lastTime * 4096 + g.sequence

/-- The identifier of a step is the sum of the fields of the state it leaves. -/
def Good (d m : Int) (s : Step) : Prop :=
  s.id = (s.gen.lastTime - TwitterEpoch) * 4194304 + d * 131072 + m * 4096 + s.gen.sequence ∧
    0 ≤ s.gen.sequence ∧ s.gen.sequence ≤ 4095

/-- The steps that stored the millisecond timestamp `T`. -/
def atTime (T : Int) (steps : List Step) : List Step :=
  steps.filter (fun s => s.gen.lastTime = T)

/-- The sequence of the next identifier a generator issues at timestamp `T`,
when `lastTime <= T`. -/
def startSeq (g : Generator) (T : Int) : Int := if g.lastTime = T then g.sequence + 1 else 0

/-! ## The batch use case and its gRPC handler -/

/-- How the run of a function ends: it returns a value, it stops with a
run-time fault of the Go runtime, or it has not returned within the clock
trace. -/
inductive Exec (α : Type) where
  | ret (a : α)
  | fault
  | blocked
  deriving DecidableEq, Repr

/-- What `IDUsecase.GenerateIDs` returns: the pointer to the slice of
identifiers (`none` is the nil pointer), the duration and the error, with the
generator and the clock trace the call leaves. -/
structure Batch where
  ids : Option (List Int)
  duration : Int
  err : Option Error
  gen : Generator
  clock : Clock
  deriving DecidableEq, Repr

/-- The loop of `GenerateIDs` (id_generator.go, lines 25-32) with `k`
iterations left, at index `i`, and the lines 34-36 after it.  The measured
`time.Since(t).Microseconds()` is the parameter `elapsed`. -/
def IDUsecase.GenerateIDs.loop (elapsed : Int) :
    Nat → Nat → List Int → Generator → Clock → Exec Batch
  | 0, _, ids, g, clock =>
    .ret { ids := some ids, duration := elapsed, err := none, gen := g, clock := clock }
  | k + 1, i, ids, g, clock =>
    match NextID g clock with
    | none => .blocked
    | some s =>
      match s.err with
      | some e => .ret { ids := none, duration := 0, err := some e, gen := s.gen, clock := s.clock }
      | none => IDUsecase.GenerateIDs.loop elapsed k (i + 1) (ids.set i s.id) s.gen s.clock

/-- Function `IDUsecase.GenerateIDs` (id_generator.go, lines 20-37), on the
snowflake generator.  `make([]int64, count)` faults on a negative `count` and
gives `count` zeros otherwise. -/
def IDUsecase.GenerateIDs (count : Int) (elapsed : Int) (g : Generator) (clock : Clock) :
    Exec Batch :=
  if count < 0 then .fault
  else IDUsecase.GenerateIDs.loop elapsed count.toNat 0 (List.replicate count.toNat 0) g clock

/-- Modelled from the spec: the message type `IDsResponse` of the generated
package `snowflake-pb`, which is not among the sources; its fields are the two
the handler sets. -/
structure IDsResponse where
  Ids : List Int
  DurationMs : Int
  deriving DecidableEq, Repr

/-- What `IDHandler.GenerateIDs` returns: the response and the error, with the
generator and the clock trace the call leaves. -/
structure Reply where
  resp : IDsResponse
  err : Option Error
  gen : Generator
  clock : Clock
  deriving DecidableEq, Repr

/-- Function `IDHandler.GenerateIDs` (handler/grpc/handler.go, lines 23-26),
with `count` the value of `int(req.Count)`.  The expression `*ids` faults when
`ids` is the nil pointer. -/
def IDHandler.GenerateIDs (count : Int) (elapsed : Int) (g : Generator) (clock : Clock) :
    Exec Reply :=
  match IDUsecase.GenerateIDs count elapsed g clock with
  | .ret b =>
    match b.ids with
    | none => .fault
    | some ids =>
      .ret { resp := { Ids := ids, DurationMs := b.duration }, err := b.err, gen := b.gen,
             clock := b.clock }
  | .fault => .fault
  | .blocked => .blocked

/-- The generator and the clock trace after a run of calls. -/
def lastState (g : Generator) (clock : Clock) (steps : List Step) : Generator × Clock :=
  steps.foldl (fun _ s => (s.gen, s.clock)) (g, clock)

/-- The steps whose identifier carries the timestamp `T`: `ParseID` reads `T`
from it. -/
def withTimestamp (T : Int) (steps : List Step) : List Step :=
  steps.filter (fun s => (ParseID s.id).timestamp = T)

/-! ## Lemmas on the 64-bit operations -/

theorem toInt64_toUint64 (x : Int) (h : isInt64 x) : toInt64 (toUint64 x) = x := by
  unfold isInt64 at h
  unfold toInt64 toUint64
  split <;> omega

theorem wrap64_eq (x : Int) (h : isInt64 x) : wrap64 x = x := toInt64_toUint64 x h

theorem wrap64_isInt64 (x : Int) : isInt64 (wrap64 x) := by
  unfold isInt64 wrap64 toInt64 toUint64
  split <;> omega

theorem toInt64_isInt64 (n : Nat) : isInt64 (toInt64 n) := by
  unfold isInt64 toInt64
  split <;> omega

theorem and64_4095 (x : Int) : and64 x 4095 = x % 4096 := by
  unfold and64
  have h1 : toUint64 4095 = 2 ^ 12 - 1 := by decide
  rw [h1, Nat.and_pow_two_sub_one_eq_mod]
  unfold toInt64 toUint64
  split <;> omega

theorem and64_31 (x : Int) : and64 x 31 = x % 32 := by
  unfold and64
  have h1 : toUint64 31 = 2 ^ 5 - 1 := by decide
  rw [h1, Nat.and_pow_two_sub_one_eq_mod]
  unfold toInt64 toUint64
  split <;> omega

theorem sar64_eq (x : Int) (k : Nat) : sar64 x k = wrap64 x / 2 ^ k := by
  unfold sar64
  rw [Int.shiftRight_eq_div_pow]
  norm_cast

theorem shl64_22 (x : Int) : shl64 x 22 = wrap64 (x * 4194304) := by
  unfold shl64 wrap64
  rw [Nat.shiftLeft_eq]
  unfold toInt64 toUint64
  split <;> split <;> omega

theorem shl64_17 (x : Int) (h0 : 0 ≤ x) (h1 : x ≤ 31) : shl64 x 17 = x * 131072 := by
  unfold shl64
  rw [Nat.shiftLeft_eq]
  unfold toInt64 toUint64
  split <;> omega

theorem shl64_12 (x : Int) (h0 : 0 ≤ x) (h1 : x ≤ 31) : shl64 x 12 = x * 4096 := by
  unfold shl64
  rw [Nat.shiftLeft_eq]
  unfold toInt64 toUint64
  split <;> omega

theorem or64_add (k : Nat) (hk : k = 12 ∨ k = 17 ∨ k = 22) (a b : Int) (ha : isInt64 a)
    (hm : a % 2 ^ k = 0) (hb0 : 0 ≤ b) (hb : b < 2 ^ k) : or64 a b = a + b := by
  unfold isInt64 at ha
  unfold or64
  have hq : toUint64 a = 2 ^ k * (toUint64 a / 2 ^ k) := by
    unfold toUint64
    rcases hk with rfl | rfl | rfl <;> omega
  have hlt : toUint64 b < 2 ^ k := by
    unfold toUint64
    rcases hk with rfl | rfl | rfl <;> omega
  rw [hq, ← Nat.mul_add_lt_is_or hlt, ← hq]
  unfold toInt64 toUint64
  rcases hk with rfl | rfl | rfl <;> split <;> omega

theorem millis_bound (n : Int) : -9223372036854 ≤ millis n ∧ millis n ≤ 9223372036854 := by
  unfold millis div64
  have hw := wrap64_isInt64 n
  have h1 : wrap64 1000000 = 1000000 := by decide
  rw [h1]
  generalize wrap64 n = x at hw
  unfold isInt64 at hw
  have key : -9223372036854 ≤ x.tdiv 1000000 ∧ x.tdiv 1000000 ≤ 9223372036854 := by
    rcases le_or_lt 0 x with h | h
    · rw [Int.tdiv_eq_ediv h (by norm_num)]; omega
    · have : x.tdiv 1000000 = -((-x) / 1000000) := by
        rw [← Int.tdiv_eq_ediv (by omega) (by norm_num), Int.neg_tdiv, neg_neg]
      rw [this]; omega
  rw [wrap64_eq _ (by unfold isInt64; omega)]
  exact key

/-! ## The identifier as a sum of its fields -/

theorem wrap64_shift_mod (x : Int) : wrap64 (x * 4194304) % 4194304 = 0 := by
  unfold wrap64 toInt64 toUint64
  split <;> omega

theorem wrap64_wrap64_mul (x : Int) : wrap64 (wrap64 x * 4194304) = wrap64 (x * 4194304) := by
  unfold wrap64 toInt64 toUint64
  split <;> split <;> split <;> omega

/-- With identity fields of 5 bits and a sequence of 12 bits the four operands
of the bitwise OR do not overlap, and the identifier is their sum. -/
theorem packID_eq (t d m s : Int) (hd0 : 0 ≤ d) (hd : d ≤ 31) (hm0 : 0 ≤ m) (hm : m ≤ 31)
    (hs0 : 0 ≤ s) (hs : s ≤ 4095) :
    packID t d m s = wrap64 ((t - TwitterEpoch) * 4194304) + d * 131072 + m * 4096 + s := by
  have e22 : TimestampShift = 22 := rfl
  have e17 : DatacenterIdShift = 17 := rfl
  have e12 : MachineIdShift = 12 := rfl
  unfold packID sub64
  rw [e22, e17, e12, shl64_22, shl64_17 d hd0 hd, shl64_12 m hm0 hm, wrap64_wrap64_mul]
  have hH := wrap64_isInt64 ((t - TwitterEpoch) * 4194304)
  have hmod := wrap64_shift_mod (t - TwitterEpoch)
  generalize wrap64 ((t - TwitterEpoch) * 4194304) = H at hH hmod
  unfold isInt64 at hH
  rw [or64_add 22 (by simp) H (d * 131072) (by unfold isInt64; omega) (by omega) (by omega)
    (by omega)]
  rw [or64_add 17 (by simp) (H + d * 131072) (m * 4096) (by unfold isInt64; omega) (by omega)
    (by omega) (by omega)]
  rw [or64_add 12 (by simp) (H + d * 131072 + m * 4096) s (by unfold isInt64; omega) (by omega)
    (by omega) (by omega)]

/-- Decoding an identifier that is the sum of in-range fields over a shifted
timestamp field `H`. -/
theorem ParseID_sum (H d m s : Int) (hH : isInt64 H) (hmod : H % 4194304 = 0)
    (hd0 : 0 ≤ d) (hd : d ≤ 31) (hm0 : 0 ≤ m) (hm : m ≤ 31) (hs0 : 0 ≤ s) (hs : s ≤ 4095) :
    (ParseID (H + d * 131072 + m * 4096 + s)).datacenter_id = d ∧
    (ParseID (H + d * 131072 + m * 4096 + s)).machine_id = m ∧
    (ParseID (H + d * 131072 + m * 4096 + s)).sequence = s ∧
    (ParseID (H + d * 131072 + m * 4096 + s)).timestamp = wrap64 (H / 4194304 + TwitterEpoch) := by
  have e22 : TimestampShift = 22 := rfl
  have e17 : DatacenterIdShift = 17 := rfl
  have e12 : MachineIdShift = 12 := rfl
  have m5 : (((1 <<< DatacenterIdBits : Nat) : Int) - 1) = 31 := by decide
  have m5b : (((1 <<< MachineIdBits : Nat) : Int) - 1) = 31 := by decide
  have m12 : (((1 <<< SequenceBits : Nat) : Int) - 1) = 4095 := by decide
  unfold isInt64 at hH
  have hid : wrap64 (H + d * 131072 + m * 4096 + s) = H + d * 131072 + m * 4096 + s :=
    wrap64_eq _ (by unfold isInt64; omega)
  simp only [ParseID, e22, e17, e12, m5, m5b, m12, and64_31, and64_4095, sar64_eq, hid, add64]
  refine ⟨by omega, by omega, by omega, ?_⟩
  congr 1
  omega

/-! ## One call of `NextID` -/

theorem and64_add64_seq (x : Int) : and64 (add64 x 1) MaxSequence = (x + 1) % 4096 := by
  have e : MaxSequence = 4095 := by decide
  rw [e, and64_4095]
  unfold add64 wrap64 toInt64 toUint64
  split <;> omega

/-- What `tilNextMillis` returns: the first reading above `last`, after
readings that are all at most `last`. -/
theorem tilNextMillis_some (last : Int) (clock : Clock) (t : Int) (rest : Clock)
    (h : tilNextMillis last clock = some (t, rest)) :
    last < t ∧ ∃ pre n, clock = pre ++ n :: rest ∧ millis n = t ∧ ∀ x ∈ pre, millis x ≤ last := by
  induction clock with
  | nil => simp [tilNextMillis] at h
  | cons a tl ih =>
    unfold tilNextMillis at h
    by_cases hle : millis a ≤ last
    · rw [if_pos hle] at h
      obtain ⟨hlt, pre, n, hcl, hn, hpre⟩ := ih h
      refine ⟨hlt, a :: pre, n, by simp [hcl], hn, ?_⟩
      intro x hx
      rcases List.mem_cons.mp hx with rfl | hx
      · exact hle
      · exact hpre x hx
    · rw [if_neg hle] at h
      simp only [Option.some.injEq, Prod.mk.injEq] at h
      obtain ⟨rfl, rfl⟩ := h
      exact ⟨by omega, [], a, by simp, rfl, by simp⟩

/-- Function `tilNextMillis` returns as soon as the trace holds a reading above `last`. -/
theorem tilNextMillis_append (last : Int) (pre : Clock) (n : Int) (rest : Clock)
    (hpre : ∀ x ∈ pre, millis x ≤ last) (hn : last < millis n) :
    tilNextMillis last (pre ++ n :: rest) = some (millis n, rest) := by
  induction pre with
  | nil => simp [tilNextMillis, not_le.mpr hn]
  | cons a tl ih =>
    have ha : millis a ≤ last := hpre a (by simp)
    simp only [List.cons_append, tilNextMillis, if_pos ha]
    exact ih (fun x hx => hpre x (by simp [hx]))

/-- The four ways a call of `NextID` returns. -/
theorem NextID_cases (g : Generator) (clock : Clock) (s : Step) (h : NextID g clock = some s) :
    ∃ n rest, clock = n :: rest ∧
      ((millis n < g.lastTime ∧
          s = { id := 0, err := some (.clockMovedBackwards (sub64 g.lastTime (millis n))),
                gen := g, clock := rest }) ∨
       (g.lastTime < millis n ∧ s = emit g 0 (millis n) rest) ∨
       (millis n = g.lastTime ∧ (g.sequence + 1) % 4096 ≠ 0 ∧
          s = emit g ((g.sequence + 1) % 4096) (millis n) rest) ∨
       (millis n = g.lastTime ∧ (g.sequence + 1) % 4096 = 0 ∧
          ∃ t rest2, tilNextMillis g.lastTime rest = some (t, rest2) ∧ s = emit g 0 t rest2)) := by
  cases clock with
  | nil => simp [NextID, timeGen] at h
  | cons n rest =>
    refine ⟨n, rest, rfl, ?_⟩
    simp only [NextID, timeGen, and64_add64_seq] at h
    by_cases h1 : millis n < g.lastTime
    · rw [if_pos h1] at h
      exact Or.inl ⟨h1, (Option.some.inj h).symm⟩
    · rw [if_neg h1] at h
      by_cases h2 : millis n = g.lastTime
      · rw [if_pos h2] at h
        by_cases h3 : (g.sequence + 1) % 4096 = 0
        · rw [if_pos h3] at h
          right; right; right
          refine ⟨h2, h3, ?_⟩
          cases htl : tilNextMillis g.lastTime rest with
          | none => rw [htl] at h; simp at h
          | some p =>
            obtain ⟨t, rest2⟩ := p
            rw [htl] at h
            simp only [Option.some.injEq] at h
            exact ⟨t, rest2, rfl, by rw [← h, h3]⟩
        · rw [if_neg h3] at h
          exact Or.inr (Or.inr (Or.inl ⟨h2, h3, (Option.some.inj h).symm⟩))
      · rw [if_neg h2] at h
        exact Or.inr (Or.inl ⟨by omega, (Option.some.inj h).symm⟩)

/-- A call that returns an error leaves the generator as it was. -/
theorem NextID_error (g : Generator) (clock : Clock) (s : Step) (h : NextID g clock = some s)
    (he : s.err ≠ none) : s.gen = g ∧ s.id = 0 ∧ ∀ x ∈ s.clock, x ∈ clock := by
  obtain ⟨n, rest, rfl, hc⟩ := NextID_cases g _ s h
  rcases hc with ⟨_, rfl⟩ | ⟨_, rfl⟩ | ⟨_, _, rfl⟩ | ⟨_, _, t, rest2, _, rfl⟩
  · exact ⟨rfl, rfl, fun x hx => List.mem_cons_of_mem _ hx⟩
  · exact absurd rfl he
  · exact absurd rfl he
  · exact absurd rfl he

/-- A call that returns an identifier: the timestamp `t` and the sequence
`seq` it packs, and how they relate to the state before the call. -/
theorem NextID_success (g : Generator) (clock : Clock) (s : Step) (h : NextID g clock = some s)
    (he : s.err = none) :
    ∃ t seq, s = emit g seq t s.clock ∧ 0 ≤ seq ∧ seq ≤ 4095 ∧
      (g.lastTime < t ∧ seq = 0 ∨ g.lastTime = t ∧ seq = (g.sequence + 1) % 4096 ∧ seq ≠ 0) ∧
      (∃ n ∈ clock, millis n = t) ∧ ∀ x ∈ s.clock, x ∈ clock := by
  obtain ⟨n, rest, rfl, hc⟩ := NextID_cases g _ s h
  rcases hc with ⟨_, rfl⟩ | ⟨hlt, rfl⟩ | ⟨heq, hne, rfl⟩ | ⟨heq, hz, t, rest2, htl, rfl⟩
  · simp at he
  · exact ⟨millis n, 0, rfl, le_refl 0, by norm_num, Or.inl ⟨hlt, rfl⟩, ⟨n, by simp, rfl⟩,
      fun x hx => List.mem_cons_of_mem _ hx⟩
  · exact ⟨millis n, (g.sequence + 1) % 4096, rfl, by omega, by omega,
      Or.inr ⟨heq.symm, rfl, hne⟩, ⟨n, by simp, rfl⟩, fun x hx => List.mem_cons_of_mem _ hx⟩
  · obtain ⟨hlt, pre, k, hcl, hk, _⟩ := tilNextMillis_some _ _ _ _ htl
    refine ⟨t, 0, rfl, le_refl 0, by norm_num, Or.inl ⟨hlt, rfl⟩, ⟨k, ?_, hk⟩, ?_⟩
    · rw [hcl]; simp
    · intro x hx
      rw [hcl]
      simp only [emit] at hx
      simp [hx]

/-! ## Reachable states -/

theorem NewGenerator_ok (d m : Int) (g : Generator) (h : NewGenerator d m = .ok g) :
    0 ≤ d ∧ d ≤ 31 ∧ 0 ≤ m ∧ m ≤ 31 ∧
      g = { datacenterId := d, machineId := m, sequence := 0, lastTime := -1 } := by
  have e1 : MaxDatacenterId = 31 := by decide
  have e2 : MaxMachineId = 31 := by decide
  unfold NewGenerator at h
  rw [e1, e2] at h
  split at h
  · cases h
  · split at h
    · cases h
    · injection h with h
      refine ⟨by omega, by omega, by omega, by omega, h.symm⟩

theorem Inv_NextID (d m : Int) (g : Generator) (clock : Clock) (s : Step) (hi : Inv d m g)
    (h : NextID g clock = some s) : Inv d m s.gen := by
  by_cases he : s.err = none
  · obtain ⟨t, seq, hs, h0, h1, _, ⟨n, _, hn⟩, _⟩ := NextID_success g clock s h he
    have hb := millis_bound n
    rw [hn] at hb
    rw [hs]
    exact ⟨hi.dc, hi.mc, hi.d0, hi.d31, hi.m0, hi.m31, h0, h1, hb.1, hb.2⟩
  · rw [(NextID_error g clock s h he).1]
    exact hi

theorem Reachable_inv (d m : Int) (g : Generator) (h : Reachable d m g) : Inv d m g := by
  induction h with
  | init h0 =>
    obtain ⟨a, b, c, e, rfl⟩ := NewGenerator_ok d m _ h0
    exact ⟨rfl, rfl, a, b, c, e, le_refl 0, by norm_num, by norm_num, by norm_num⟩
  | next _ hstep ih => exact Inv_NextID d m _ _ _ ih hstep

/-! ## Decoding what `NextID` returns -/

/-- The fields `ParseID` reads back from an identifier `NextID` returned. -/
theorem ParseID_NextID (d m : Int) (g : Generator) (clock : Clock) (s : Step) (hi : Inv d m g)
    (h : NextID g clock = some s) (he : s.err = none) :
    (ParseID s.id).datacenter_id = d ∧ (ParseID s.id).machine_id = m ∧
    (ParseID s.id).sequence = s.gen.sequence ∧
    (ParseID s.id).timestamp =
      wrap64 (wrap64 ((s.gen.lastTime - TwitterEpoch) * 4194304) / 4194304 + TwitterEpoch) := by
  obtain ⟨t, seq, hs, h0, h1, _, _, _⟩ := NextID_success g clock s h he
  have hid : s.id = packID t d m seq := by rw [hs, emit, hi.dc, hi.mc]
  have hseq : s.gen.sequence = seq := by rw [hs, emit]
  have htm : s.gen.lastTime = t := by rw [hs, emit]
  rw [hid, hseq, htm, packID_eq t d m seq hi.d0 hi.d31 hi.m0 hi.m31 h0 h1]
  exact ParseID_sum _ d m seq (wrap64_isInt64 _) (wrap64_shift_mod _) hi.d0 hi.d31 hi.m0 hi.m31
    h0 h1

/-- With a relative timestamp of 41 bits nothing overflows: the identifier is
the sum of its fields, and the pair `(lastTime, sequence)` grew. -/
theorem NextID_inRange (d m : Int) (g : Generator) (clock : Clock) (s : Step) (hi : Inv d m g)
    (hr : InRange clock) (h : NextID g clock = some s) (he : s.err = none) :
    key g < key s.gen ∧ Good d m s := by
  obtain ⟨t, seq, hs, h0, h1, hcase, ⟨n, hn, hnt⟩, _⟩ := NextID_success g clock s h he
  have hid : s.id = packID t d m seq := by rw [hs, emit, hi.dc, hi.mc]
  have hseq : s.gen.sequence = seq := by rw [hs, emit]
  have htm : s.gen.lastTime = t := by rw [hs, emit]
  have hrange := hr n hn
  rw [hnt] at hrange
  have hE : TwitterEpoch = 1288834974657 := rfl
  have hw : wrap64 ((t - TwitterEpoch) * 4194304) = (t - TwitterEpoch) * 4194304 :=
    wrap64_eq _ (by unfold isInt64; rw [hE] at hrange ⊢; omega)
  have g0 := hi.s0
  have g1 := hi.s4095
  refine ⟨?_, ?_, ?_, ?_⟩
  · unfold key
    rw [hseq, htm]
    rcases hcase with ⟨hlt, rfl⟩ | ⟨heq, hsq, hne⟩ <;> omega
  · rw [hid, hseq, htm, packID_eq t d m seq hi.d0 hi.d31 hi.m0 hi.m31 h0 h1, hw]
  · rw [hseq]; exact h0
  · rw [hseq]; exact h1

theorem InRange_sub (clock rest : Clock) (hr : InRange clock) (hsub : ∀ x ∈ rest, x ∈ clock) :
    InRange rest := fun n hn => hr n (hsub n hn)

theorem NextID_clock_sub (g : Generator) (clock : Clock) (s : Step)
    (h : NextID g clock = some s) : ∀ x ∈ s.clock, x ∈ clock := by
  by_cases he : s.err = none
  · obtain ⟨_, _, _, _, _, _, _, hsub⟩ := NextID_success g clock s h he
    exact hsub
  · exact (NextID_error g clock s h he).2.2

/-- Over a clock whose readings are in range, the successful calls of a run
leave strictly growing pairs `(lastTime, sequence)`. -/
theorem calls_increasing (d m : Int) (N : Nat) : ∀ (g : Generator) (clock : Clock),
    Inv d m g → InRange clock →
    (∀ s ∈ successes (calls N g clock), key g < key s.gen ∧ Good d m s) ∧
    (successes (calls N g clock)).Pairwise (fun a b => key a.gen < key b.gen) := by
  induction N with
  | zero => intro g clock _ _; simp [calls, successes]
  | succ N ih =>
    intro g clock hi hr
    unfold calls
    cases hstep : NextID g clock with
    | none => simp [successes]
    | some s =>
      have hi2 := Inv_NextID d m g clock s hi hstep
      have hr2 := InRange_sub clock s.clock hr (NextID_clock_sub g clock s hstep)
      obtain ⟨ih1, ih2⟩ := ih s.gen s.clock hi2 hr2
      simp only [successes] at ih1 ih2 ⊢
      by_cases he : s.err = none
      · obtain ⟨hk, hg⟩ := NextID_inRange d m g clock s hi hr hstep he
        rw [List.filter_cons_of_pos (by simpa using he)]
        constructor
        · intro x hx
          rcases List.mem_cons.mp hx with rfl | hx
          · exact ⟨hk, hg⟩
          · exact ⟨lt_trans hk (ih1 x hx).1, (ih1 x hx).2⟩
        · exact List.Pairwise.cons (fun x hx => (ih1 x hx).1) ih2
      · rw [List.filter_cons_of_neg (by simpa using he)]
        have hg := (NextID_error g clock s hstep he).1
        exact ⟨fun x hx => by have := ih1 x hx; rwa [hg] at this, ih2⟩

/-- Two good steps with growing keys have growing identifiers. -/
theorem Good_lt (d m : Int) (a b : Step) (ha : Good d m a) (hb : Good d m b)
    (hk : key a.gen < key b.gen) : a.id < b.id := by
  obtain ⟨ha1, ha2, ha3⟩ := ha
  obtain ⟨hb1, hb2, hb3⟩ := hb
  unfold key at hk
  rw [ha1, hb1]
  omega

theorem calls_ids_increasing (d m : Int) (N : Nat) (g : Generator) (clock : Clock)
    (hi : Inv d m g) (hr : InRange clock) :
    (successes (calls N g clock)).Pairwise (fun a b => a.id < b.id) := by
  obtain ⟨h1, h2⟩ := calls_increasing d m N g clock hi hr
  exact List.Pairwise.imp_of_mem (fun {a b} ha hb hk => Good_lt d m a b (h1 a ha).2 (h1 b hb).2 hk) h2

/-! ## Runs of sequential calls -/

theorem NextID_advance (g : Generator) (x : Int) (c : Clock) (h : g.lastTime < millis x) :
    NextID g (x :: c) = some (emit g 0 (millis x) c) := by
  simp only [NextID, timeGen]
  rw [if_neg (by omega), if_neg (by omega)]

theorem NextID_same (g : Generator) (x : Int) (c : Clock) (h : millis x = g.lastTime)
    (hs : (g.sequence + 1) % 4096 ≠ 0) :
    NextID g (x :: c) = some (emit g ((g.sequence + 1) % 4096) (millis x) c) := by
  simp only [NextID, timeGen, and64_add64_seq]
  rw [if_neg (by omega), if_pos h, if_neg hs]

theorem NextID_wait (g : Generator) (x : Int) (c : Clock) (t : Int) (c2 : Clock)
    (h : millis x = g.lastTime) (hs : (g.sequence + 1) % 4096 = 0)
    (htl : tilNextMillis g.lastTime c = some (t, c2)) :
    NextID g (x :: c) = some (emit g 0 t c2) := by
  simp only [NextID, timeGen, and64_add64_seq]
  rw [if_neg (by omega), if_pos h, if_pos hs, htl, hs]

theorem calls_index_zero (N : Nat) (g : Generator) (c : Clock) (hN : 0 < N) :
    (calls N g c)[0]? = NextID g c := by
  cases N with
  | zero => omega
  | succ N =>
    unfold calls
    cases NextID g c <;> simp

/-- The call after the one of index `j` starts from the generator and the
clock that call left. -/
theorem calls_index_succ (j : Nat) : ∀ (N : Nat) (g : Generator) (c : Clock) (s : Step),
    (calls N g c)[j]? = some s → j + 1 < N → (calls N g c)[j + 1]? = NextID s.gen s.clock := by
  induction j with
  | zero =>
    intro N g c s h hN
    cases N with
    | zero => omega
    | succ N =>
      unfold calls at h ⊢
      cases hn : NextID g c with
      | none => rw [hn] at h; simp at h
      | some s0 =>
        rw [hn] at h
        simp only [List.getElem?_cons_zero, Option.some.injEq] at h
        subst h
        simp only [List.getElem?_cons_succ]
        exact calls_index_zero N _ _ (by omega)
  | succ j ih =>
    intro N g c s h hN
    cases N with
    | zero => omega
    | succ N =>
      unfold calls at h ⊢
      cases hn : NextID g c with
      | none => rw [hn] at h; simp at h
      | some s0 =>
        rw [hn] at h
        simp only [List.getElem?_cons_succ] at h ⊢
        exact ih N _ _ s h (by omega)

/-- On a fresh generator and a clock frozen at `T >= 0` for at least 4096
readings, the call of index `j < 4096` returns sequence `j` at timestamp `T`. -/
theorem calls_frozen (d m T : Int) (g : Generator) (frozen : Clock) (n : Int) (rest : Clock)
    (hg : NewGenerator d m = .ok g) (hT : 0 ≤ T) (hfrozen : ∀ x ∈ frozen, millis x = T)
    (hlen : 4096 ≤ frozen.length) (j : Nat) (hj : j < 4096) :
    (calls 4097 g (frozen ++ n :: rest))[j]? =
      some { id := packID T d m j, err := none, gen := ⟨d, m, j, T⟩,
             clock := frozen.drop (j + 1) ++ n :: rest } := by
  obtain ⟨_, _, _, _, rfl⟩ := NewGenerator_ok d m g hg
  induction j with
  | zero =>
    rw [calls_index_zero _ _ _ (by omega)]
    cases frozen with
    | nil => simp at hlen
    | cons x fr =>
      have hx : millis x = T := hfrozen x (by simp)
      rw [List.cons_append, NextID_advance _ x _ (by simp only; omega), hx]
      simp [emit]
  | succ j ih =>
    rw [calls_index_succ j _ _ _ _ (ih (by omega)) (by omega)]
    have hlt : j + 1 < frozen.length := by omega
    have hx : millis frozen[j + 1] = T := hfrozen _ (List.getElem_mem _)
    simp only
    rw [List.drop_eq_getElem_cons hlt, List.cons_append,
      NextID_same _ _ _ (by simp only; exact hx) (by simp only; omega), hx]
    have e : ((j : Int) + 1) % 4096 = ((j + 1 : Nat) : Int) := by push_cast; omega
    simp only [emit, e]

/-- After 4096 calls at `T` the next call takes the first reading above `T`
and restarts the sequence at 0. -/
theorem calls_frozen_next (d m T : Int) (g : Generator) (frozen : Clock) (n : Int) (rest : Clock)
    (hg : NewGenerator d m = .ok g) (hT : 0 ≤ T) (hfrozen : ∀ x ∈ frozen, millis x = T)
    (hlen : 4096 ≤ frozen.length) (hn : T < millis n) :
    (calls 4097 g (frozen ++ n :: rest))[4096]? =
      some { id := packID (millis n) d m 0, err := none, gen := ⟨d, m, 0, millis n⟩,
             clock := rest } := by
  have h := calls_frozen d m T g frozen n rest hg hT hfrozen hlen 4095 (by norm_num)
  rw [calls_index_succ 4095 _ _ _ _ h (by norm_num)]
  simp only
  cases hd : frozen.drop (4095 + 1) with
  | nil =>
    rw [List.nil_append, NextID_advance _ n _ (by simp only; exact hn)]
    simp [emit]
  | cons y ys =>
    have hsub : ∀ x ∈ y :: ys, millis x = T := fun x hx =>
      hfrozen x (List.mem_of_mem_drop (by rw [hd]; exact hx))
    have hy : millis y = T := hsub y (by simp)
    have htl : tilNextMillis T (ys ++ n :: rest) = some (millis n, rest) :=
      tilNextMillis_append T ys n rest (fun x hx => le_of_eq (hsub x (by simp [hx]))) hn
    rw [List.cons_append, NextID_wait _ y _ (millis n) rest (by simp only; exact hy)
      (by simp only; decide) (by simp only; exact htl)]
    simp [emit]

/-- Decoding the identifier packed from in-range fields. -/
theorem ParseID_packID (t d m q : Int) (hd0 : 0 ≤ d) (hd : d ≤ 31) (hm0 : 0 ≤ m) (hm : m ≤ 31)
    (hq0 : 0 ≤ q) (hq : q ≤ 4095) :
    (ParseID (packID t d m q)).datacenter_id = d ∧ (ParseID (packID t d m q)).machine_id = m ∧
    (ParseID (packID t d m q)).sequence = q ∧
    (ParseID (packID t d m q)).timestamp =
      wrap64 (wrap64 ((t - TwitterEpoch) * 4194304) / 4194304 + TwitterEpoch) := by
  rw [packID_eq t d m q hd0 hd hm0 hm hq0 hq]
  exact ParseID_sum _ d m q (wrap64_isInt64 _) (wrap64_shift_mod _) hd0 hd hm0 hm hq0 hq

/-- The arithmetic shift gives a relative timestamp of 42 signed bits back. -/
theorem timestamp_decode (t : Int) (h0 : -2 ^ 41 ≤ t - TwitterEpoch)
    (h1 : t - TwitterEpoch < 2 ^ 41) :
    wrap64 (wrap64 ((t - TwitterEpoch) * 4194304) / 4194304 + TwitterEpoch) = t := by
  have hE : TwitterEpoch = 1288834974657 := rfl
  rw [hE] at h0 h1 ⊢
  have hw : wrap64 ((t - 1288834974657) * 4194304) = (t - 1288834974657) * 4194304 :=
    wrap64_eq _ (by unfold isInt64; omega)
  rw [hw]
  have hd : (t - 1288834974657) * 4194304 / 4194304 + 1288834974657 = t := by omega
  rw [hd]
  exact wrap64_eq _ (by unfold isInt64; omega)

/-! ## Further facts on one call -/

/-- A call never lowers `lastTime`. -/
theorem NextID_lastTime_le (g : Generator) (clock : Clock) (s : Step)
    (h : NextID g clock = some s) : g.lastTime ≤ s.gen.lastTime := by
  by_cases he : s.err = none
  · obtain ⟨t, seq, hs, _, _, hcase, _, _⟩ := NextID_success g clock s h he
    have htm : s.gen.lastTime = t := by rw [hs, emit]
    rw [htm]
    rcases hcase with ⟨hlt, _⟩ | ⟨heq, _, _⟩ <;> omega
  · rw [(NextID_error g clock s h he).1]

/-- In a reachable state `lastTime` is the initial -1 or larger. -/
theorem Reachable_lastTime (d m : Int) (g : Generator) (h : Reachable d m g) :
    -1 ≤ g.lastTime := by
  induction h with
  | init h0 =>
    obtain ⟨_, _, _, _, rfl⟩ := NewGenerator_ok d m _ h0
    exact le_refl _
  | next _ hstep ih => exact le_trans ih (NextID_lastTime_le _ _ _ hstep)

/-- A trace that holds a reading above `last` splits at the first such reading. -/
theorem exists_first_above (last : Int) (rest : Clock) (h : ∃ y ∈ rest, last < millis y) :
    ∃ pre n tail, rest = pre ++ n :: tail ∧ (∀ y ∈ pre, millis y ≤ last) ∧ last < millis n := by
  induction rest with
  | nil => obtain ⟨y, hy, _⟩ := h; simp at hy
  | cons a tl ih =>
    by_cases ha : last < millis a
    · exact ⟨[], a, tl, by simp, by simp, ha⟩
    · obtain ⟨y, hy, hlt⟩ := h
      rcases List.mem_cons.mp hy with rfl | hy
      · exact absurd hlt ha
      · obtain ⟨pre, n, tail, hcl, hpre, hn⟩ := ih ⟨y, hy, hlt⟩
        refine ⟨a :: pre, n, tail, by simp [hcl], ?_, hn⟩
        intro z hz
        rcases List.mem_cons.mp hz with rfl | hz
        · omega
        · exact hpre z hz

/-- Packing the fields `ParseID` reads from an `int64` gives the `int64` back. -/
theorem packID_ParseID (x : Int) (hx : isInt64 x) :
    packID (ParseID x).timestamp (ParseID x).datacenter_id (ParseID x).machine_id
      (ParseID x).sequence = x := by
  have e22 : TimestampShift = 22 := rfl
  have e17 : DatacenterIdShift = 17 := rfl
  have e12 : MachineIdShift = 12 := rfl
  have m5 : (((1 <<< DatacenterIdBits : Nat) : Int) - 1) = 31 := by decide
  have m5b : (((1 <<< MachineIdBits : Nat) : Int) - 1) = 31 := by decide
  have m12 : (((1 <<< SequenceBits : Nat) : Int) - 1) = 4095 := by decide
  have hE : TwitterEpoch = 1288834974657 := rfl
  have hw := wrap64_eq x hx
  unfold isInt64 at hx
  have hts : (ParseID x).timestamp = x / 4194304 + 1288834974657 := by
    simp only [ParseID, e22, sar64_eq, hw, add64, hE]
    exact wrap64_eq _ (by unfold isInt64; omega)
  have hd : (ParseID x).datacenter_id = x / 131072 % 32 := by
    simp only [ParseID, e17, m5, and64_31, sar64_eq, hw]
    norm_num
  have hm : (ParseID x).machine_id = x / 4096 % 32 := by
    simp only [ParseID, e12, m5b, and64_31, sar64_eq, hw]
    norm_num
  have hs : (ParseID x).sequence = x % 4096 := by
    simp only [ParseID, m12, and64_4095]
  rw [hts, hd, hm, hs, packID_eq _ _ _ _ (by omega) (by omega) (by omega) (by omega) (by omega)
    (by omega), hE]
  have hsub : (x / 4194304 + 1288834974657 - 1288834974657) * 4194304 = x / 4194304 * 4194304 := by
    omega
  rw [hsub, wrap64_eq _ (by unfold isInt64; omega)]
  omega

/-- Every call of a run from a reachable state leaves a reachable state. -/
theorem calls_reachable (d m : Int) (N : Nat) : ∀ (g : Generator) (clock : Clock) (j : Nat)
    (s : Step), Reachable d m g → (calls N g clock)[j]? = some s → Reachable d m s.gen := by
  induction N with
  | zero => intro g clock j s _ h; simp [calls] at h
  | succ N ih =>
    intro g clock j s hg h
    unfold calls at h
    cases hn : NextID g clock with
    | none => rw [hn] at h; simp at h
    | some s0 =>
      rw [hn] at h
      have h0 : Reachable d m s0.gen := Reachable.next hg hn
      cases j with
      | zero =>
        simp only [List.getElem?_cons_zero, Option.some.injEq] at h
        rw [← h]; exact h0
      | succ j =>
        simp only [List.getElem?_cons_succ] at h
        exact ih s0.gen s0.clock j s h0 h

/-- The states a fresh generator goes through while the clock shows one
millisecond value `millis x >= 0`. -/
theorem Reachable_frozen (d m : Int) (g : Generator) (x : Int) (hg : NewGenerator d m = .ok g)
    (hx : 0 ≤ millis x) (j : Nat) (hj : j < 4096) : Reachable d m ⟨d, m, j, millis x⟩ := by
  have h := calls_frozen d m (millis x) g (List.replicate 4096 x) 0 [] hg hx
    (fun y hy => by rw [List.eq_of_mem_replicate hy]) (le_of_eq (List.length_replicate _ _).symm)
    j hj
  exact calls_reachable d m 4097 g _ j _ (Reachable.init hg) h

/-! ## The identifiers of one millisecond -/

theorem map_range_succ (a : Int) (k : Nat) :
    (List.range (k + 1)).map (fun (i : Nat) => a + (i : Int)) =
      a :: (List.range k).map (fun (i : Nat) => a + 1 + (i : Int)) := by
  rw [List.range_succ_eq_map, List.map_cons, List.map_map]
  refine congrArg₂ _ (by simp) (List.map_congr_left (fun i _ => ?_))
  simp only [Function.comp, Nat.succ_eq_add_one]
  push_cast
  ring

/-- Every step of a run from a state with the invariant is the result of a
call made in a state with the invariant. -/
theorem calls_mem (d m : Int) (N : Nat) : ∀ (g : Generator) (clock : Clock) (s : Step),
    Inv d m g → s ∈ calls N g clock → ∃ g2 c2, Inv d m g2 ∧ NextID g2 c2 = some s := by
  induction N with
  | zero => intro g clock s _ h; simp [calls] at h
  | succ N ih =>
    intro g clock s hi h
    unfold calls at h
    cases hn : NextID g clock with
    | none => rw [hn] at h; simp at h
    | some s0 =>
      rw [hn] at h
      rcases List.mem_cons.mp h with rfl | h
      · exact ⟨g, clock, hi, hn⟩
      · exact ih s0.gen s0.clock s (Inv_NextID d m g clock s0 hi hn) h

/-- Within a run, the identifiers stored at one timestamp `T` carry the
consecutive sequences from `startSeq g T` on, and none goes past 4095. -/
theorem calls_budget (d m T : Int) (N : Nat) : ∀ (g : Generator) (clock : Clock), Inv d m g →
    (T < g.lastTime → atTime T (successes (calls N g clock)) = []) ∧
    (g.lastTime ≤ T →
      (atTime T (successes (calls N g clock))).map (fun s => s.gen.sequence) =
        (List.range (atTime T (successes (calls N g clock))).length).map
          (fun (i : Nat) => startSeq g T + (i : Int)) ∧
      startSeq g T + ((atTime T (successes (calls N g clock))).length : Int) ≤ 4096) := by
  induction N with
  | zero =>
    intro g clock hi
    have h0 := hi.s0
    have h1 := hi.s4095
    refine ⟨fun _ => by simp [calls, successes, atTime], fun _ => ?_⟩
    simp only [calls, successes, atTime, List.filter_nil, List.map_nil, List.length_nil,
      List.range_zero, true_and]
    unfold startSeq
    split <;> simp
    omega
  | succ N ih =>
    intro g clock hi
    have g0 := hi.s0
    have g1 := hi.s4095
    unfold calls
    cases hstep : NextID g clock with
    | none =>
      refine ⟨fun _ => by simp [successes, atTime], fun _ => ?_⟩
      simp only [successes, atTime, List.filter_nil, List.map_nil, List.length_nil,
        List.range_zero, true_and]
      unfold startSeq
      split <;> simp
      omega
    | some s =>
      have hi2 := Inv_NextID d m g clock s hi hstep
      obtain ⟨ih1, ih2⟩ := ih s.gen s.clock hi2
      by_cases he : s.err = none
      · obtain ⟨t, seq, hs, q0, q1, hcase, _, _⟩ := NextID_success g clock s hstep he
        have hseq : s.gen.sequence = seq := by rw [hs, emit]
        have htm : s.gen.lastTime = t := by rw [hs, emit]
        have hsucc : successes (s :: calls N s.gen s.clock) =
            s :: successes (calls N s.gen s.clock) := by
          simp only [successes]
          exact List.filter_cons_of_pos (by simpa using he)
        rw [hsucc]
        by_cases ht : s.gen.lastTime = T
        · have hat : atTime T (s :: successes (calls N s.gen s.clock)) =
              s :: atTime T (successes (calls N s.gen s.clock)) := by
            simp only [atTime]
            exact List.filter_cons_of_pos (by simpa using ht)
          rw [hat]
          obtain ⟨ihm, ihl⟩ := ih2 (le_of_eq ht)
          have hst : startSeq s.gen T = seq + 1 := by
            unfold startSeq; rw [if_pos ht, hseq]
          have hsg : startSeq g T = seq := by
            unfold startSeq
            rcases hcase with ⟨hlt, rfl⟩ | ⟨heq, hsq, hne⟩
            · rw [if_neg (by omega)]
            · rw [if_pos (by omega)]; omega
          rw [hst] at ihm ihl
          refine ⟨fun hlt => ?_, fun _ => ?_⟩
          · rcases hcase with ⟨h1, _⟩ | ⟨h1, _, _⟩ <;> omega
          · rw [hsg]
            refine ⟨?_, ?_⟩
            · rw [List.length_cons, map_range_succ, List.map_cons, hseq, ihm]
            · rw [List.length_cons]; push_cast; omega
        · have hat : atTime T (s :: successes (calls N s.gen s.clock)) =
              atTime T (successes (calls N s.gen s.clock)) := by
            simp only [atTime]
            exact List.filter_cons_of_neg (by simpa using ht)
          rw [hat]
          refine ⟨fun hlt => ih1 (by rcases hcase with ⟨h1, _⟩ | ⟨h1, _, _⟩ <;> omega),
            fun hle => ?_⟩
          rcases lt_or_gt_of_ne ht with hlt | hgt
          · have hsg : startSeq g T = startSeq s.gen T := by
              unfold startSeq
              rw [if_neg ht, if_neg (by rcases hcase with ⟨h1, _⟩ | ⟨h1, _, _⟩ <;> omega)]
            rw [hsg]
            exact ih2 (le_of_lt hlt)
          · rw [ih1 hgt]
            simp only [List.map_nil, List.length_nil, List.range_zero, true_and]
            unfold startSeq
            split <;> simp
            omega
      · have hsucc : successes (s :: calls N s.gen s.clock) =
            successes (calls N s.gen s.clock) := by
          simp only [successes]
          exact List.filter_cons_of_neg (by simpa using he)
        rw [hsucc]
        have hg := (NextID_error g clock s hstep he).1
        have hst : startSeq s.gen T = startSeq g T := by rw [hg]
        have hlt : s.gen.lastTime = g.lastTime := by rw [hg]
        rw [hst, hlt] at ih2
        rw [hlt] at ih1
        exact ⟨ih1, ih2⟩

/-! ## The batch loop -/

theorem take_succ_set (ids : List Int) (i : Nat) (x : Int) (h : i < ids.length) :
    (ids.set i x).take (i + 1) = ids.take i ++ [x] := by
  rw [List.set_eq_take_cons_drop x h, List.append_cons]
  exact List.take_left' (by rw [List.length_append, List.length_take]; simp; omega)

/-- When the `k` calls of the loop all return an identifier, the loop stores
them at the indices `i, ..., i + k - 1` and returns the slice. -/
theorem loop_success (elapsed : Int) (k : Nat) : ∀ (i : Nat) (ids : List Int) (g : Generator)
    (clock : Clock), (calls k g clock).length = k → (∀ s ∈ calls k g clock, s.err = none) →
    i + k ≤ ids.length →
    IDUsecase.GenerateIDs.loop elapsed k i ids g clock =
      .ret { ids := some (ids.take i ++ (calls k g clock).map (fun s => s.id) ++ ids.drop (i + k))
             duration := elapsed
             err := none
             gen := (lastState g clock (calls k g clock)).1
             clock := (lastState g clock (calls k g clock)).2 } := by
  induction k with
  | zero =>
    intro i ids g clock _ _ _
    simp [IDUsecase.GenerateIDs.loop, calls, lastState]
  | succ k ih =>
    intro i ids g clock hlen hall hi
    unfold calls at hlen hall ⊢
    unfold IDUsecase.GenerateIDs.loop
    cases hn : NextID g clock with
    | none => rw [hn] at hlen; simp at hlen
    | some s =>
      rw [hn] at hlen hall
      simp only [List.length_cons, Nat.add_right_cancel_iff] at hlen
      have he : s.err = none := hall s (by simp)
      simp only [he]
      rw [ih (i + 1) (ids.set i s.id) s.gen s.clock hlen
        (fun x hx => hall x (List.mem_cons_of_mem _ hx)) (by rw [List.length_set]; omega)]
      have h1 := take_succ_set ids i s.id (by omega)
      have h2 : (ids.set i s.id).drop (i + 1 + k) = ids.drop (i + (k + 1)) := by
        rw [List.drop_set_of_lt s.id ids (by omega)]
        congr 1
        omega
      rw [h1, h2]
      simp [lastState]

/-- When the call of index `j` is the first that returns an error, the loop
returns at that call: a nil slice, duration 0 and the error. -/
theorem loop_failure (elapsed : Int) (j : Nat) : ∀ (k i : Nat) (ids : List Int) (g : Generator)
    (clock : Clock) (s : Step) (e : Error), (calls k g clock)[j]? = some s → s.err = some e →
    (∀ i2 < j, ∀ s2, (calls k g clock)[i2]? = some s2 → s2.err = none) →
    IDUsecase.GenerateIDs.loop elapsed k i ids g clock =
      .ret { ids := none, duration := 0, err := some e, gen := s.gen, clock := s.clock } := by
  induction j with
  | zero =>
    intro k i ids g clock s e h he _
    cases k with
    | zero => simp [calls] at h
    | succ k =>
      unfold calls at h
      unfold IDUsecase.GenerateIDs.loop
      cases hn : NextID g clock with
      | none => rw [hn] at h; simp at h
      | some s0 =>
        rw [hn] at h
        simp only [List.getElem?_cons_zero, Option.some.injEq] at h
        subst h
        simp only [he]
  | succ j ih =>
    intro k i ids g clock s e h he hprev
    cases k with
    | zero => simp [calls] at h
    | succ k =>
      unfold calls at h hprev
      unfold IDUsecase.GenerateIDs.loop
      cases hn : NextID g clock with
      | none => rw [hn] at h; simp at h
      | some s0 =>
        rw [hn] at h hprev
        simp only [List.getElem?_cons_succ] at h
        have h0 : s0.err = none := hprev 0 (by omega) s0 (by simp)
        simp only [h0]
        exact ih k (i + 1) (ids.set i s0.id) s0.gen s0.clock s e h he
          (fun i2 hi2 s2 hs2 => hprev (i2 + 1) (by omega) s2 (by simpa using hs2))

theorem successes_all (steps : List Step) (h : ∀ s ∈ steps, s.err = none) :
    successes steps = steps := by
  unfold successes
  exact List.filter_eq_self.mpr (fun s hs => by simpa using h s hs)

/-! ## The timestamp an identifier carries -/

theorem calls_length_le (N : Nat) : ∀ (g : Generator) (clock : Clock),
    (calls N g clock).length ≤ N := by
  induction N with
  | zero => intro g clock; simp [calls]
  | succ N ih =>
    intro g clock
    unfold calls
    cases NextID g clock with
    | none => simp
    | some s =>
      simp only [List.length_cons]
      exact Nat.succ_le_succ (ih s.gen s.clock)

/-- Every step of a run from a reachable state is the result of a call made in
a reachable state, on a clock whose readings are readings of the run's clock. -/
theorem calls_mem_reachable (d m : Int) (N : Nat) : ∀ (g : Generator) (clock : Clock)
    (s : Step), Reachable d m g → s ∈ calls N g clock →
    ∃ g2 c2, Reachable d m g2 ∧ (∀ x ∈ c2, x ∈ clock) ∧ NextID g2 c2 = some s := by
  induction N with
  | zero => intro g clock s _ h; simp [calls] at h
  | succ N ih =>
    intro g clock s hg h
    unfold calls at h
    cases hn : NextID g clock with
    | none => rw [hn] at h; simp at h
    | some s0 =>
      rw [hn] at h
      rcases List.mem_cons.mp h with rfl | h
      · exact ⟨g, clock, hg, fun x hx => hx, hn⟩
      · obtain ⟨g2, c2, hg2, hsub, hn2⟩ := ih s0.gen s0.clock s (Reachable.next hg hn) h
        exact ⟨g2, c2, hg2, fun x hx => NextID_clock_sub g clock s0 hn x (hsub x hx), hn2⟩

/-- When the readings of the clock have a relative timestamp below `2^41`, an
identifier returned in a reachable state decodes to the timestamp and the
sequence the call stored. -/
theorem ParseID_stored (d m : Int) (g : Generator) (clock : Clock) (s : Step)
    (hg : Reachable d m g) (hr : ∀ n ∈ clock, millis n - TwitterEpoch < 2 ^ 41)
    (h : NextID g clock = some s) (he : s.err = none) :
    (ParseID s.id).timestamp = s.gen.lastTime ∧ (ParseID s.id).sequence = s.gen.sequence := by
  obtain ⟨_, _, hsq, hts⟩ := ParseID_NextID d m g clock s (Reachable_inv d m g hg) h he
  obtain ⟨t, seq, hs, _, _, _, ⟨n, hn, hnt⟩, _⟩ := NextID_success g clock s h he
  have htm : s.gen.lastTime = t := by rw [hs, emit]
  have hlo := Reachable_lastTime d m g hg
  have hle := NextID_lastTime_le g clock s h
  have hup := hr n hn
  have hE : TwitterEpoch = 1288834974657 := rfl
  refine ⟨?_, hsq⟩
  rw [hts]
  exact timestamp_decode s.gen.lastTime (by rw [hE]; omega) (by rw [htm, ← hnt]; exact hup)

/-- Over such a clock the identifiers that carry `T` are those of the calls
that stored `T`. -/
theorem withTimestamp_eq_atTime (d m T : Int) (g : Generator) (clock : Clock) (N : Nat)
    (hg : Reachable d m g) (hr : ∀ n ∈ clock, millis n - TwitterEpoch < 2 ^ 41) :
    withTimestamp T (successes (calls N g clock)) = atTime T (successes (calls N g clock)) := by
  unfold withTimestamp atTime
  refine List.filter_congr (fun s hs => ?_)
  have hs2 := List.mem_filter.mp hs
  obtain ⟨g2, c2, hg2, hsub, hn2⟩ := calls_mem_reachable d m N g clock s hg hs2.1
  have hdec := ParseID_stored d m g2 c2 s hg2 (fun n hn => hr n (hsub n hn)) hn2
    (by simpa using hs2.2)
  rw [hdec.1]

/-- A run of 4097 calls, 4096 at the millisecond 1288834974657 and one `2^42`
milliseconds later: all 4097 identifiers carry the timestamp 1288834974657. -/
theorem count_past_range :
    4096 < (withTimestamp TwitterEpoch (successes (calls 4097 ⟨1, 1, 0, -1⟩
      (List.replicate 4096 1288834974657000000 ++ [5686881485761000000])))).length := by
  have hfro : ∀ x ∈ List.replicate 4096 (1288834974657000000 : Int),
      millis x = 1288834974657 :=
    fun x hx => by rw [List.eq_of_mem_replicate hx]; decide
  have hlen : 4096 ≤ (List.replicate 4096 (1288834974657000000 : Int)).length :=
    le_of_eq (List.length_replicate _ _).symm
  have h1 := calls_frozen 1 1 1288834974657 ⟨1, 1, 0, -1⟩
    (List.replicate 4096 1288834974657000000) 5686881485761000000 [] rfl (by decide) hfro hlen
  have h2 := calls_frozen_next 1 1 1288834974657 ⟨1, 1, 0, -1⟩
    (List.replicate 4096 1288834974657000000) 5686881485761000000 [] rfl (by decide) hfro hlen
    (by decide)
  have hE : TwitterEpoch = 1288834974657 := rfl
  have hall : ∀ s ∈ calls 4097 ⟨1, 1, 0, -1⟩
      (List.replicate 4096 1288834974657000000 ++ [5686881485761000000]),
      s.err = none ∧ (ParseID s.id).timestamp = TwitterEpoch := by
    intro s hs
    obtain ⟨j, hj⟩ := List.getElem?_of_mem hs
    obtain ⟨hjl, _⟩ := List.getElem?_eq_some.mp hj
    have hj2 : j < 4097 := lt_of_lt_of_le hjl (calls_length_le _ _ _)
    rcases Nat.lt_or_ge j 4096 with hlt | hge
    · rw [h1 j hlt] at hj
      simp only [Option.some.injEq] at hj
      subst hj
      refine ⟨rfl, ?_⟩
      simp only
      rw [(ParseID_packID 1288834974657 1 1 j (by norm_num) (by norm_num) (by norm_num)
        (by norm_num) (by omega) (by omega)).2.2.2]
      exact timestamp_decode 1288834974657 (by rw [hE]; norm_num) (by rw [hE]; norm_num)
    · have hj3 : j = 4096 := by omega
      subst hj3
      rw [h2] at hj
      simp only [Option.some.injEq] at hj
      subst hj
      exact ⟨rfl, by decide⟩
  have hs1 : successes (calls 4097 ⟨1, 1, 0, -1⟩
      (List.replicate 4096 1288834974657000000 ++ [5686881485761000000])) =
      calls 4097 ⟨1, 1, 0, -1⟩
        (List.replicate 4096 1288834974657000000 ++ [5686881485761000000]) :=
    successes_all _ (fun s hs => (hall s hs).1)
  have hs2 : withTimestamp TwitterEpoch (calls 4097 ⟨1, 1, 0, -1⟩
      (List.replicate 4096 1288834974657000000 ++ [5686881485761000000])) =
      calls 4097 ⟨1, 1, 0, -1⟩
        (List.replicate 4096 1288834974657000000 ++ [5686881485761000000]) := by
    unfold withTimestamp
    exact List.filter_eq_self.mpr (fun s hs => by simpa using (hall s hs).2)
  rw [hs1, hs2]
  exact (List.getElem?_eq_some.mp h2).1

/-! ## The claims -/

/-- C1 (uniqueness): on a generator built by `NewGenerator d m`, in any state
it has reached, and over any clock whose readings all have a relative timestamp
in `[0, 2^41)`, the identifiers returned by the successful ones of `N`
sequential `NextID` calls are pairwise distinct. -/
theorem C1_uniqueness (d m : Int) (g : Generator) (clock : Clock) (N : Nat)
    (hg : Reachable d m g) (hr : InRange clock) :
    ((successes (calls N g clock)).map (fun s => s.id)).Nodup := by
  have h := calls_ids_increasing d m N g clock (Reachable_inv d m g hg) hr
  rw [List.Nodup, List.pairwise_map]
  exact h.imp (fun hab => ne_of_lt hab)

theorem C1_uniqueness_witness :
    InRange [1700000000000000000, 1700000000000000001, 1700000000001000000] ∧
    ((successes (calls 3 ⟨1, 1, 0, -1⟩
      [1700000000000000000, 1700000000000000001, 1700000000001000000])).map
        (fun s => s.id)).Nodup :=
  have hr : InRange [1700000000000000000, 1700000000000000001, 1700000000001000000] := by
    unfold InRange; decide
  ⟨hr, C1_uniqueness 1 1 ⟨1, 1, 0, -1⟩ _ 3 (Reachable.init rfl) hr⟩

/-- C2 (monotonicity): among the successful calls of a run of sequential
`NextID` calls on one generator, over a clock whose readings have a relative
timestamp in `[0, 2^41)`, a later call returns a value at least as large as an
earlier one, and a strictly larger one when the timestamp stored by the call
advanced or the sequence differs. -/
theorem C2_monotonicity (d m : Int) (g : Generator) (clock : Clock) (N : Nat)
    (hg : Reachable d m g) (hr : InRange clock) :
    (successes (calls N g clock)).Pairwise (fun a b =>
      a.id ≤ b.id ∧
      ((a.gen.lastTime < b.gen.lastTime ∨ a.gen.sequence ≠ b.gen.sequence) → a.id < b.id)) := by
  have h := calls_ids_increasing d m N g clock (Reachable_inv d m g hg) hr
  exact h.imp (fun hab => ⟨le_of_lt hab, fun _ => hab⟩)

theorem C2_monotonicity_witness :
    InRange [1700000000000000000, 1700000000000000001, 1700000000001000000] ∧
    (successes (calls 3 ⟨1, 1, 0, -1⟩
      [1700000000000000000, 1700000000000000001, 1700000000001000000])).Pairwise (fun a b =>
      a.id ≤ b.id ∧
      ((a.gen.lastTime < b.gen.lastTime ∨ a.gen.sequence ≠ b.gen.sequence) → a.id < b.id)) :=
  have hr : InRange [1700000000000000000, 1700000000000000001, 1700000000001000000] := by
    unfold InRange; decide
  ⟨hr, C2_monotonicity 1 1 ⟨1, 1, 0, -1⟩ _ 3 (Reachable.init rfl) hr⟩

/-- C3 (identity round trip): in every state reachable from `NewGenerator d m`
and for every clock on which `NextID` returns an identifier, whatever the size
of the timestamp, `ParseID` of that identifier yields `datacenter_id = d` and
`machine_id = m`. -/
theorem C3_identity_round_trip (d m : Int) (g : Generator) (clock : Clock) (s : Step)
    (hg : Reachable d m g) (h : NextID g clock = some s) (he : s.err = none) :
    (ParseID s.id).datacenter_id = d ∧ (ParseID s.id).machine_id = m := by
  obtain ⟨h1, h2, _, _⟩ := ParseID_NextID d m g clock s (Reachable_inv d m g hg) h he
  exact ⟨h1, h2⟩

theorem C3_identity_round_trip_witness :
    NextID ⟨3, 7, 0, -1⟩ [9000000000000000000] =
      some ⟨-4550517836962435072, none, ⟨3, 7, 0, 9000000000000⟩, []⟩ ∧
    (ParseID (-4550517836962435072)).datacenter_id = 3 ∧
    (ParseID (-4550517836962435072)).machine_id = 7 :=
  ⟨by decide, C3_identity_round_trip 3 7 ⟨3, 7, 0, -1⟩ [9000000000000000000]
    ⟨-4550517836962435072, none, ⟨3, 7, 0, 9000000000000⟩, []⟩ (Reachable.init rfl)
    (by decide) rfl⟩

/-- C4 (timestamp and sequence round trip): when `NextID` returns an identifier
and the timestamp `t` it stored in `lastTime` satisfies
`0 <= t - 1288834974657 < 2^41`, `ParseID` of the identifier yields
`timestamp = t`, which is the millisecond value of a reading of the clock, and
the sequence the generator holds after the call. -/
theorem C4_timestamp_sequence_round_trip (d m : Int) (g : Generator) (clock : Clock) (s : Step)
    (hg : Reachable d m g) (h : NextID g clock = some s) (he : s.err = none)
    (h0 : 0 ≤ s.gen.lastTime - TwitterEpoch) (h1 : s.gen.lastTime - TwitterEpoch < 2 ^ 41) :
    (ParseID s.id).timestamp = s.gen.lastTime ∧ (ParseID s.id).sequence = s.gen.sequence ∧
    ∃ n ∈ clock, millis n = s.gen.lastTime := by
  obtain ⟨_, _, hsq, hts⟩ := ParseID_NextID d m g clock s (Reachable_inv d m g hg) h he
  obtain ⟨t, seq, hs, _, _, _, ⟨n, hn, hnt⟩, _⟩ := NextID_success g clock s h he
  have htm : s.gen.lastTime = t := by rw [hs, emit]
  have hE : TwitterEpoch = 1288834974657 := rfl
  refine ⟨?_, hsq, n, hn, by rw [htm, hnt]⟩
  rw [hts]
  rw [hE] at h0 h1 ⊢
  have hw : wrap64 ((s.gen.lastTime - 1288834974657) * 4194304) =
      (s.gen.lastTime - 1288834974657) * 4194304 :=
    wrap64_eq _ (by unfold isInt64; omega)
  rw [hw]
  have hd : (s.gen.lastTime - 1288834974657) * 4194304 / 4194304 + 1288834974657 =
      s.gen.lastTime := by omega
  rw [hd]
  exact wrap64_eq _ (by unfold isInt64; omega)

theorem C4_timestamp_sequence_round_trip_witness :
    NextID ⟨1, 1, 0, -1⟩ [1700000000000000000] =
      some ⟨1724551110456381440, none, ⟨1, 1, 0, 1700000000000⟩, []⟩ ∧
    (ParseID 1724551110456381440).timestamp = 1700000000000 ∧
    (ParseID 1724551110456381440).sequence = 0 ∧
    ∃ n ∈ [(1700000000000000000 : Int)], millis n = 1700000000000 :=
  ⟨by decide, C4_timestamp_sequence_round_trip 1 1 ⟨1, 1, 0, -1⟩ [1700000000000000000]
    ⟨1724551110456381440, none, ⟨1, 1, 0, 1700000000000⟩, []⟩ (Reachable.init rfl)
    (by decide) rfl (by decide) (by decide)⟩

/-- C5 (cross-instance non-collision): two generators built by `NewGenerator`
with distinct `(datacenterId, machineId)` pairs, in any states they have
reached and over any clocks, never return the same identifier. -/
theorem C5_cross_instance (d1 m1 d2 m2 : Int) (g1 g2 : Generator) (c1 c2 : Clock) (s1 s2 : Step)
    (hne : (d1, m1) ≠ (d2, m2)) (hg1 : Reachable d1 m1 g1) (hg2 : Reachable d2 m2 g2)
    (h1 : NextID g1 c1 = some s1) (h2 : NextID g2 c2 = some s2)
    (he1 : s1.err = none) (he2 : s2.err = none) : s1.id ≠ s2.id := by
  intro heq
  obtain ⟨a1, b1, _, _⟩ := ParseID_NextID d1 m1 g1 c1 s1 (Reachable_inv d1 m1 g1 hg1) h1 he1
  obtain ⟨a2, b2, _, _⟩ := ParseID_NextID d2 m2 g2 c2 s2 (Reachable_inv d2 m2 g2 hg2) h2 he2
  rw [heq] at a1 b1
  exact hne (by rw [← a1, ← b1, a2, b2])

theorem C5_cross_instance_witness :
    NextID ⟨0, 31, 0, -1⟩ [1700000000000000000] =
      some ⟨1724551110456373248, none, ⟨0, 31, 0, 1700000000000⟩, []⟩ ∧
    NextID ⟨31, 0, 0, -1⟩ [1700000000000000000] =
      some ⟨1724551110460309504, none, ⟨31, 0, 0, 1700000000000⟩, []⟩ ∧
    (1724551110456373248 : Int) ≠ 1724551110460309504 :=
  ⟨by decide, by decide,
    C5_cross_instance 0 31 31 0 ⟨0, 31, 0, -1⟩ ⟨31, 0, 0, -1⟩ [1700000000000000000]
      [1700000000000000000] ⟨1724551110456373248, none, ⟨0, 31, 0, 1700000000000⟩, []⟩
      ⟨1724551110460309504, none, ⟨31, 0, 0, 1700000000000⟩, []⟩ (by decide)
      (Reachable.init rfl) (Reachable.init rfl) (by decide) (by decide) rfl rfl⟩

/-- C6 (range validation): `NewGenerator d m` returns a generator exactly when
`0 <= d <= 31` and `0 <= m <= 31`.  Otherwise it returns no generator and an
error: the one that names the datacenter ID and the bound 31 when `d` is out
of range, checked first, else the one that names the machine ID and the bound
31.  `(-1, 0)`, `(32, 0)`, `(0, -1)` and `(0, 32)` fail. -/
theorem C6_range_validation (d m : Int) :
    ((∃ g, NewGenerator d m = .ok g) ↔ (0 ≤ d ∧ d ≤ 31 ∧ 0 ≤ m ∧ m ≤ 31)) ∧
    ((d < 0 ∨ 31 < d) → NewGenerator d m = .error (.datacenterIdRange 31)) ∧
    ((0 ≤ d ∧ d ≤ 31) → (m < 0 ∨ 31 < m) → NewGenerator d m = .error (.machineIdRange 31)) ∧
    Error.message (.datacenterIdRange 31) = "datacenter ID must be between 0 and 31" ∧
    Error.message (.machineIdRange 31) = "machine ID must be between 0 and 31" ∧
    NewGenerator (-1) 0 = .error (.datacenterIdRange 31) ∧
    NewGenerator 32 0 = .error (.datacenterIdRange 31) ∧
    NewGenerator 0 (-1) = .error (.machineIdRange 31) ∧
    NewGenerator 0 32 = .error (.machineIdRange 31) := by
  have e1 : MaxDatacenterId = 31 := by decide
  have e2 : MaxMachineId = 31 := by decide
  refine ⟨⟨?_, ?_⟩, ?_, ?_, rfl, rfl, rfl, rfl, rfl, rfl⟩
  · rintro ⟨g, hg⟩
    obtain ⟨a, b, c, e, _⟩ := NewGenerator_ok d m g hg
    exact ⟨a, b, c, e⟩
  · rintro ⟨a, b, c, e⟩
    refine ⟨⟨d, m, 0, -1⟩, ?_⟩
    unfold NewGenerator
    rw [e1, e2, if_neg (by omega), if_neg (by omega)]
  · intro hd
    unfold NewGenerator
    rw [e1, if_pos (by omega)]
  · intro hd hm
    unfold NewGenerator
    rw [e1, e2, if_neg (by omega), if_pos (by omega)]

theorem C6_range_validation_witness :
    (∃ g, NewGenerator 31 31 = .ok g) ∧ (∃ g, NewGenerator 0 0 = .ok g) ∧
    NewGenerator 32 (-1) = .error (.datacenterIdRange 31) ∧
    NewGenerator 31 32 = .error (.machineIdRange 31) :=
  ⟨(C6_range_validation 31 31).1.mpr (by decide), (C6_range_validation 0 0).1.mpr (by decide),
    (C6_range_validation 32 (-1)).2.1 (by decide),
    (C6_range_validation 31 32).2.2.1 (by decide) (by decide)⟩

/-- C7 (bit-width containment): for every integer `x`, in particular every
64-bit signed one, negative or never produced by a generator, `ParseID x`
yields `0 <= sequence <= 4095`, `0 <= datacenter_id <= 31` and
`0 <= machine_id <= 31`. -/
theorem C7_bit_width_containment (x : Int) :
    0 ≤ (ParseID x).sequence ∧ (ParseID x).sequence ≤ 4095 ∧
    0 ≤ (ParseID x).datacenter_id ∧ (ParseID x).datacenter_id ≤ 31 ∧
    0 ≤ (ParseID x).machine_id ∧ (ParseID x).machine_id ≤ 31 := by
  have m5 : (((1 <<< DatacenterIdBits : Nat) : Int) - 1) = 31 := by decide
  have m5b : (((1 <<< MachineIdBits : Nat) : Int) - 1) = 31 := by decide
  have m12 : (((1 <<< SequenceBits : Nat) : Int) - 1) = 4095 := by decide
  simp only [ParseID, m5, m5b, m12, and64_31, and64_4095]
  omega

/-- C8 (clock regression): in every state `g` reachable from `NewGenerator d m`
and for every first clock reading `now` with `now < lastTime`, `NextID` returns
the identifier 0 together with the clock-regression error whose argument is
exactly `lastTime - now`, and the generator is unchanged. -/
theorem C8_clock_regression (d m : Int) (g : Generator) (n : Int) (rest : Clock)
    (hg : Reachable d m g) (hlt : millis n < g.lastTime) :
    NextID g (n :: rest) =
      some { id := 0, err := some (.clockMovedBackwards (g.lastTime - millis n)),
             gen := g, clock := rest } ∧
    Error.message (.clockMovedBackwards (g.lastTime - millis n)) =
      "clock moved backwards. Refusing to generate ID for " ++ toString (g.lastTime - millis n)
        ++ " milliseconds" := by
  have hi := Reachable_inv d m g hg
  have hb := millis_bound n
  have h1 := hi.tlo
  have h2 := hi.thi
  have hw : sub64 g.lastTime (millis n) = g.lastTime - millis n :=
    wrap64_eq _ (by unfold isInt64; omega)
  refine ⟨?_, rfl⟩
  simp only [NextID, timeGen, if_pos hlt, hw]

theorem C8_clock_regression_witness :
    millis 1699999999990000000 < 1700000000000 ∧
    NextID ⟨1, 1, 0, 1700000000000⟩ [1699999999990000000, 5] =
      some { id := 0, err := some (.clockMovedBackwards (1700000000000 - millis 1699999999990000000)),
             gen := ⟨1, 1, 0, 1700000000000⟩, clock := [5] } ∧
    Error.message (.clockMovedBackwards (1700000000000 - millis 1699999999990000000)) =
      "clock moved backwards. Refusing to generate ID for " ++
        toString ((1700000000000 : Int) - millis 1699999999990000000) ++ " milliseconds" :=
  ⟨by decide, C8_clock_regression 1 1 ⟨1, 1, 0, 1700000000000⟩ 1699999999990000000 [5]
    (Reachable.next (s := ⟨1724551110456381440, none, ⟨1, 1, 0, 1700000000000⟩, []⟩)
      (Reachable.init (g := ⟨1, 1, 0, -1⟩) rfl)
      (show NextID ⟨1, 1, 0, -1⟩ [1700000000000000000] = _ by decide)) (by decide)⟩

/-- C9 (clock regression is the only failure): whenever a call of `NextID`
returns, it returns an error if and only if the first clock reading `now`
satisfies `now < lastTime`; a call with `now = lastTime`, in particular one
with `sequence = 4095`, returns no error. -/
theorem C9_only_failure (g : Generator) (n : Int) (rest : Clock) (s : Step)
    (h : NextID g (n :: rest) = some s) :
    (s.err ≠ none ↔ millis n < g.lastTime) ∧
    (millis n = g.lastTime → g.sequence = 4095 → s.err = none) := by
  obtain ⟨n2, rest2, hcl, hc⟩ := NextID_cases g _ s h
  obtain ⟨rfl, rfl⟩ := List.cons.inj hcl
  rcases hc with ⟨hlt, rfl⟩ | ⟨hlt, rfl⟩ | ⟨heq, _, rfl⟩ | ⟨heq, _, t, r2, _, rfl⟩
  · exact ⟨⟨fun _ => hlt, fun _ => by simp⟩, fun he => by omega⟩
  · exact ⟨⟨fun hn => absurd rfl hn, fun hl => by omega⟩, fun _ _ => rfl⟩
  · exact ⟨⟨fun hn => absurd rfl hn, fun hl => by omega⟩, fun _ _ => rfl⟩
  · exact ⟨⟨fun hn => absurd rfl hn, fun hl => by omega⟩, fun _ _ => rfl⟩

theorem C9_only_failure_witness :
    NextID ⟨1, 1, 4095, 1700000000000⟩ [1700000000000000000, 1700000000000999999,
        1700000000001000000] =
      some ⟨1724551110460575744, none, ⟨1, 1, 0, 1700000000001⟩, []⟩ ∧
    (((none : Option Error) ≠ none ↔ millis 1700000000000000000 < 1700000000000) ∧
      (millis 1700000000000000000 = 1700000000000 → (4095 : Int) = 4095 →
        (none : Option Error) = none)) :=
  ⟨by decide, C9_only_failure ⟨1, 1, 4095, 1700000000000⟩ 1700000000000000000
    [1700000000000999999, 1700000000001000000]
    ⟨1724551110460575744, none, ⟨1, 1, 0, 1700000000001⟩, []⟩ (by decide)⟩

/-- C10 (frozen-clock scenario), as amended: for every generator freshly built
by `NewGenerator d m` and every clock frozen at a millisecond value `T >= 0`
for at least 4096 readings and then showing a first value `T2` above `T`, the
k-th call, `1 <= k <= 4096`, returns the identifier that packs `T`, `d`, `m`
and the sequence `k - 1`: it decodes to sequence `k - 1` and to the same
timestamp as the first identifier, and that timestamp is `T` when
`T - 1288834974657 < 2^41`.  The 4097th call stores `T2` and returns the
identifier that packs `T2` with sequence 0: it decodes to sequence 0, and to
the timestamp `T2` when `T2 - 1288834974657 < 2^41`. -/
theorem C10_frozen_clock (d m T : Int) (g : Generator) (frozen : Clock) (n : Int) (rest : Clock)
    (hg : NewGenerator d m = .ok g) (hT : 0 ≤ T) (hfrozen : ∀ x ∈ frozen, millis x = T)
    (hlen : 4096 ≤ frozen.length) (hn : T < millis n) :
    (∀ k : Nat, 1 ≤ k → k ≤ 4096 →
      ∃ s, (calls 4097 g (frozen ++ n :: rest))[k - 1]? = some s ∧ s.err = none ∧
        s.id = packID T d m ((k : Int) - 1) ∧ s.gen.lastTime = T ∧
        (ParseID s.id).sequence = (k : Int) - 1 ∧
        (ParseID s.id).timestamp = (ParseID (packID T d m 0)).timestamp ∧
        (T - TwitterEpoch < 2 ^ 41 → (ParseID s.id).timestamp = T)) ∧
    ∃ s, (calls 4097 g (frozen ++ n :: rest))[4096]? = some s ∧ s.err = none ∧
      s.id = packID (millis n) d m 0 ∧ s.gen.lastTime = millis n ∧
      (ParseID s.id).sequence = 0 ∧
      (millis n - TwitterEpoch < 2 ^ 41 → (ParseID s.id).timestamp = millis n) := by
  obtain ⟨hd0, hd, hm0, hm, _⟩ := NewGenerator_ok d m g hg
  have hE : TwitterEpoch = 1288834974657 := rfl
  constructor
  · intro k hk1 hk2
    have hc := calls_frozen d m T g frozen n rest hg hT hfrozen hlen (k - 1) (by omega)
    have hcast : ((k - 1 : Nat) : Int) = (k : Int) - 1 := by omega
    rw [hcast] at hc
    obtain ⟨_, _, hsq, hts⟩ :=
      ParseID_packID T d m ((k : Int) - 1) hd0 hd hm0 hm (by omega) (by omega)
    obtain ⟨_, _, _, hts0⟩ := ParseID_packID T d m 0 hd0 hd hm0 hm (le_refl 0) (by norm_num)
    refine ⟨_, hc, rfl, rfl, rfl, hsq, by rw [hts, hts0], fun hlt => ?_⟩
    rw [hts]
    exact timestamp_decode T (by rw [hE]; omega) hlt
  · have hc := calls_frozen_next d m T g frozen n rest hg hT hfrozen hlen hn
    obtain ⟨_, _, hsq, hts⟩ :=
      ParseID_packID (millis n) d m 0 hd0 hd hm0 hm (le_refl 0) (by norm_num)
    refine ⟨_, hc, rfl, rfl, rfl, hsq, fun hlt => ?_⟩
    rw [hts]
    exact timestamp_decode (millis n) (by rw [hE]; omega) hlt

theorem C10_frozen_clock_witness :
    (∀ k : Nat, 1 ≤ k → k ≤ 4096 →
      ∃ s, (calls 4097 ⟨1, 1, 0, -1⟩
          (List.replicate 4096 1700000000000000000 ++ 1700000000001000000 :: []))[k - 1]? = some s ∧
        s.err = none ∧
        s.id = packID 1700000000000 1 1 ((k : Int) - 1) ∧ s.gen.lastTime = 1700000000000 ∧
        (ParseID s.id).sequence = (k : Int) - 1 ∧
        (ParseID s.id).timestamp = (ParseID (packID 1700000000000 1 1 0)).timestamp ∧
        (1700000000000 - TwitterEpoch < 2 ^ 41 → (ParseID s.id).timestamp = 1700000000000)) ∧
    ∃ s, (calls 4097 ⟨1, 1, 0, -1⟩
        (List.replicate 4096 1700000000000000000 ++ 1700000000001000000 :: []))[4096]? = some s ∧
      s.err = none ∧
      s.id = packID (millis 1700000000001000000) 1 1 0 ∧
      s.gen.lastTime = millis 1700000000001000000 ∧
      (ParseID s.id).sequence = 0 ∧
      (millis 1700000000001000000 - TwitterEpoch < 2 ^ 41 →
        (ParseID s.id).timestamp = millis 1700000000001000000) :=
  C10_frozen_clock 1 1 1700000000000 ⟨1, 1, 0, -1⟩ (List.replicate 4096 1700000000000000000)
    1700000000001000000 [] rfl (by decide)
    (fun x hx => by rw [List.eq_of_mem_replicate hx]; decide)
    (le_of_eq (List.length_replicate _ _).symm) (by decide)

/-- C10 fails as stated.  With the clock frozen at `T = -1`, the value the
fresh generator holds in `lastTime`, the first call takes the same-millisecond
branch and returns sequence 1.  With the clock frozen at
`T = 1288834974657 + 2^41` the first identifier decodes to another timestamp.
With the clock frozen at `T = 1288834974657 + 2^41 - 1` and then showing
`T + 1`, the identifier of the 4097th call decodes to another timestamp than
`T + 1`. -/
theorem C10_counterexample :
    NewGenerator 1 1 = .ok ⟨1, 1, 0, -1⟩ ∧
    millis (-1000000) = -1 ∧
    NextID ⟨1, 1, 0, -1⟩ [-1000000, -1000000] =
      some ⟨-5405765689547812863, none, ⟨1, 1, 1, -1⟩, [-1000000]⟩ ∧
    (ParseID (-5405765689547812863)).sequence = 1 ∧
    millis 3487858230209000000 = 3487858230209 ∧
    NextID ⟨1, 1, 0, -1⟩ [3487858230209000000, 3487858230209000000] =
      some ⟨-9223372036854640640, none, ⟨1, 1, 0, 3487858230209⟩, [3487858230209000000]⟩ ∧
    (ParseID (-9223372036854640640)).timestamp = -910188280895 ∧
    millis 3487858230208000000 = 3487858230208 ∧
    (calls 4097 ⟨1, 1, 0, -1⟩
        (List.replicate 4096 3487858230208000000 ++ 3487858230209000000 :: []))[4096]? =
      some ⟨-9223372036854640640, none, ⟨1, 1, 0, 3487858230209⟩, []⟩ :=
  ⟨rfl, by decide, by decide, by decide, by decide, by decide, by decide, by decide,
    (calls_frozen_next 1 1 3487858230208 ⟨1, 1, 0, -1⟩ (List.replicate 4096 3487858230208000000)
      3487858230209000000 [] rfl (by decide)
      (fun x hx => by rw [List.eq_of_mem_replicate hx]; decide)
      (le_of_eq (List.length_replicate _ _).symm) (by decide)).trans (by decide)⟩

/-- C11 (construction result): for every `d` and `m` in `[0, 31]`,
`NewGenerator d m` returns the generator whose state is `datacenterId = d`,
`machineId = m`, `sequence = 0`, `lastTime = -1`. -/
theorem C11_construction_result (d m : Int) (hd0 : 0 ≤ d) (hd : d ≤ 31) (hm0 : 0 ≤ m)
    (hm : m ≤ 31) :
    NewGenerator d m =
      .ok { datacenterId := d, machineId := m, sequence := 0, lastTime := -1 } := by
  have e1 : MaxDatacenterId = 31 := by decide
  have e2 : MaxMachineId = 31 := by decide
  unfold NewGenerator
  rw [e1, e2, if_neg (by omega), if_neg (by omega)]

theorem C11_construction_result_witness :
    (0 : Int) ≤ 31 ∧ (31 : Int) ≤ 31 ∧ (0 : Int) ≤ 0 ∧ (0 : Int) ≤ 31 ∧
    NewGenerator 31 0 = .ok { datacenterId := 31, machineId := 0, sequence := 0, lastTime := -1 } :=
  ⟨by decide, by decide, by decide, by decide,
    C11_construction_result 31 0 (by decide) (by decide) (by decide) (by decide)⟩

/-- C12 (decoding inverts the packing): for every 64-bit signed integer `x`,
the `id` field of `ParseID x` is `x`, and packing the decoded timestamp,
datacenter id, machine id and sequence with the expression of `NextID`, in
64-bit arithmetic, gives `x` back. -/
theorem C12_decoding_inverse (x : Int) (hx : isInt64 x) :
    (ParseID x).id = x ∧
    packID (ParseID x).timestamp (ParseID x).datacenter_id (ParseID x).machine_id
      (ParseID x).sequence = x :=
  ⟨rfl, packID_ParseID x hx⟩

theorem C12_decoding_inverse_witness :
    isInt64 (-1234567890123456789) ∧
    (ParseID (-1234567890123456789)).id = -1234567890123456789 ∧
    packID (ParseID (-1234567890123456789)).timestamp
      (ParseID (-1234567890123456789)).datacenter_id
      (ParseID (-1234567890123456789)).machine_id
      (ParseID (-1234567890123456789)).sequence = -1234567890123456789 :=
  ⟨by decide, C12_decoding_inverse (-1234567890123456789) (by decide)⟩

/-- C14 (sequence-exhaustion wait), as amended: in a reachable state with
`sequence = 4095`, when the first clock reading equals `lastTime` and the
readings that follow hold some value above `lastTime`, `NextID` returns,
without error, the identifier that packs sequence 0 with the first following
reading above the old `lastTime`, and stores that reading in `lastTime`.  The
identifier decodes to sequence 0, and to the timestamp of that reading when
the reading minus 1288834974657 is below `2^41`.  The function
`tilNextMillis` never returns a value at or below its argument. -/
theorem C14_sequence_exhaustion_wait (d m : Int) (g : Generator) (x : Int) (rest : Clock)
    (hg : Reachable d m g) (hseq : g.sequence = 4095) (hx : millis x = g.lastTime)
    (hex : ∃ y ∈ rest, g.lastTime < millis y) :
    (∃ pre n tail, rest = pre ++ n :: tail ∧ (∀ y ∈ pre, millis y ≤ g.lastTime) ∧
      g.lastTime < millis n ∧
      NextID g (x :: rest) =
        some { id := packID (millis n) d m 0, err := none, gen := ⟨d, m, 0, millis n⟩,
               clock := tail } ∧
      (ParseID (packID (millis n) d m 0)).sequence = 0 ∧
      (millis n - TwitterEpoch < 2 ^ 41 →
        (ParseID (packID (millis n) d m 0)).timestamp = millis n)) ∧
    ∀ (last : Int) (c : Clock) (t : Int) (c2 : Clock),
      tilNextMillis last c = some (t, c2) → last < t := by
  have hi := Reachable_inv d m g hg
  have hlo := Reachable_lastTime d m g hg
  have hE : TwitterEpoch = 1288834974657 := rfl
  refine ⟨?_, fun last c t c2 h => (tilNextMillis_some last c t c2 h).1⟩
  obtain ⟨pre, n, tail, hcl, hpre, hn⟩ := exists_first_above g.lastTime rest hex
  have htl : tilNextMillis g.lastTime rest = some (millis n, tail) := by
    rw [hcl]; exact tilNextMillis_append g.lastTime pre n tail hpre hn
  obtain ⟨_, _, hsq, hts⟩ :=
    ParseID_packID (millis n) d m 0 hi.d0 hi.d31 hi.m0 hi.m31 (le_refl 0) (by norm_num)
  refine ⟨pre, n, tail, hcl, hpre, hn, ?_, hsq, fun hlt => ?_⟩
  · rw [NextID_wait g x rest (millis n) tail hx (by rw [hseq]; decide) htl]
    obtain ⟨gd, gm, gs, gt⟩ := g
    have h1 := hi.dc
    have h2 := hi.mc
    simp only at h1 h2
    simp [emit, h1, h2]
  · rw [hts]
    exact timestamp_decode (millis n) (by rw [hE]; omega) hlt

theorem C14_sequence_exhaustion_wait_witness :
    (∃ pre n tail, [1700000000000999999, 1700000000001000000, 7] = pre ++ n :: tail ∧
      (∀ y ∈ pre, millis y ≤ 1700000000000) ∧
      1700000000000 < millis n ∧
      NextID ⟨1, 1, 4095, 1700000000000⟩
          (1700000000000000000 :: [1700000000000999999, 1700000000001000000, 7]) =
        some { id := packID (millis n) 1 1 0, err := none, gen := ⟨1, 1, 0, millis n⟩,
               clock := tail } ∧
      (ParseID (packID (millis n) 1 1 0)).sequence = 0 ∧
      (millis n - TwitterEpoch < 2 ^ 41 →
        (ParseID (packID (millis n) 1 1 0)).timestamp = millis n)) ∧
    ∀ (last : Int) (c : Clock) (t : Int) (c2 : Clock),
      tilNextMillis last c = some (t, c2) → last < t :=
  C14_sequence_exhaustion_wait 1 1 ⟨1, 1, 4095, 1700000000000⟩ 1700000000000000000
    [1700000000000999999, 1700000000001000000, 7]
    (Reachable_frozen 1 1 ⟨1, 1, 0, -1⟩ 1700000000000000000 rfl (by decide) 4095 (by decide))
    rfl (by decide)
    ⟨1700000000001000000, by simp, by decide⟩

/-- C14 fails as stated.  In the state a generator reaches after 4096 calls at
the millisecond `1288834974657 + 2^41 - 1`, a call that reads that millisecond
and then the next one returns sequence 0 and stores the new reading
3487858230209, but its identifier decodes to the timestamp -910188280895. -/
theorem C14_counterexample :
    Reachable 1 1 ⟨1, 1, 4095, 3487858230208⟩ ∧
    millis 3487858230208000000 = 3487858230208 ∧
    millis 3487858230209000000 = 3487858230209 ∧
    NextID ⟨1, 1, 4095, 3487858230208⟩ [3487858230208000000, 3487858230209000000] =
      some ⟨-9223372036854640640, none, ⟨1, 1, 0, 3487858230209⟩, []⟩ ∧
    (ParseID (-9223372036854640640)).sequence = 0 ∧
    (ParseID (-9223372036854640640)).timestamp = -910188280895 ∧
    (ParseID (-9223372036854640640)).timestamp ≠ 3487858230209 :=
  ⟨Reachable_frozen 1 1 ⟨1, 1, 0, -1⟩ 3487858230208000000 rfl (by decide) 4095 (by decide),
    by decide, by decide, by decide, by decide, by decide, by decide⟩

/-- C15 (new-millisecond reset): in every reachable state, whatever its
sequence, and for every first clock reading `now > lastTime`, `NextID` returns
without error, sets `sequence` to 0 and `lastTime` to `now`, and the identifier
it returns decodes to sequence 0. -/
theorem C15_new_millisecond_reset (d m : Int) (g : Generator) (x : Int) (rest : Clock)
    (hg : Reachable d m g) (hlt : g.lastTime < millis x) :
    NextID g (x :: rest) =
      some { id := packID (millis x) d m 0, err := none, gen := ⟨d, m, 0, millis x⟩,
             clock := rest } ∧
    (ParseID (packID (millis x) d m 0)).sequence = 0 := by
  have hi := Reachable_inv d m g hg
  obtain ⟨_, _, hsq, _⟩ :=
    ParseID_packID (millis x) d m 0 hi.d0 hi.d31 hi.m0 hi.m31 (le_refl 0) (by norm_num)
  refine ⟨?_, hsq⟩
  rw [NextID_advance g x rest hlt]
  obtain ⟨gd, gm, gs, gt⟩ := g
  have h1 := hi.dc
  have h2 := hi.mc
  simp only at h1 h2
  simp [emit, h1, h2]

theorem C15_new_millisecond_reset_witness :
    (1700000000000 : Int) < millis 1700000000005000000 ∧
    NextID ⟨1, 1, 2047, 1700000000000⟩ (1700000000005000000 :: [3]) =
      some { id := packID (millis 1700000000005000000) 1 1 0, err := none,
             gen := ⟨1, 1, 0, millis 1700000000005000000⟩, clock := [3] } ∧
    (ParseID (packID (millis 1700000000005000000) 1 1 0)).sequence = 0 :=
  ⟨by decide, C15_new_millisecond_reset 1 1 ⟨1, 1, 2047, 1700000000000⟩ 1700000000005000000 [3]
    (Reachable_frozen 1 1 ⟨1, 1, 0, -1⟩ 1700000000000000000 rfl (by decide) 2047 (by decide))
    (by decide)⟩

/-- C16 (state invariant): in every state reachable from `NewGenerator d m` by
`NextID` calls, successful or failing, under any clock, `datacenterId` and
`machineId` equal `d` and `m` and lie in `[0, 31]`, `sequence` lies in
`[0, 4095]`, `lastTime` is at least -1, and a further call leaves a `lastTime`
that is not smaller. -/
theorem C16_state_invariant (d m : Int) (g : Generator) (hg : Reachable d m g) :
    g.datacenterId = d ∧ g.machineId = m ∧ 0 ≤ d ∧ d ≤ 31 ∧ 0 ≤ m ∧ m ≤ 31 ∧
    0 ≤ g.sequence ∧ g.sequence ≤ 4095 ∧ -1 ≤ g.lastTime ∧
    ∀ (clock : Clock) (s : Step), NextID g clock = some s →
      g.lastTime ≤ s.gen.lastTime ∧ s.gen.datacenterId = d ∧ s.gen.machineId = m ∧
      0 ≤ s.gen.sequence ∧ s.gen.sequence ≤ 4095 := by
  have hi := Reachable_inv d m g hg
  refine ⟨hi.dc, hi.mc, hi.d0, hi.d31, hi.m0, hi.m31, hi.s0, hi.s4095,
    Reachable_lastTime d m g hg, fun clock s h => ?_⟩
  have hi2 := Inv_NextID d m g clock s hi h
  exact ⟨NextID_lastTime_le g clock s h, hi2.dc, hi2.mc, hi2.s0, hi2.s4095⟩

theorem C16_state_invariant_witness :
    (4095 : Int) = 4095 ∧ (1 : Int) = 1 ∧ (0 : Int) ≤ 1 ∧ (1 : Int) ≤ 31 ∧ (0 : Int) ≤ 1 ∧
    (1 : Int) ≤ 31 ∧ (0 : Int) ≤ 4095 ∧ (4095 : Int) ≤ 4095 ∧
    (-1 : Int) ≤ millis 1700000000000000000 ∧
    ∀ (clock : Clock) (s : Step),
      NextID ⟨1, 1, 4095, millis 1700000000000000000⟩ clock = some s →
      millis 1700000000000000000 ≤ s.gen.lastTime ∧ s.gen.datacenterId = 1 ∧
      s.gen.machineId = 1 ∧ 0 ≤ s.gen.sequence ∧ s.gen.sequence ≤ 4095 :=
  have h := C16_state_invariant 1 1 ⟨1, 1, 4095, millis 1700000000000000000⟩
    (Reachable_frozen 1 1 ⟨1, 1, 0, -1⟩ 1700000000000000000 rfl (by decide) 4095 (by decide))
  ⟨by decide, h.2.1, h.2.2.1, h.2.2.2.1, h.2.2.2.2.1, h.2.2.2.2.2.1, h.2.2.2.2.2.2.1,
    h.2.2.2.2.2.2.2.1, h.2.2.2.2.2.2.2.2.1, h.2.2.2.2.2.2.2.2.2⟩

/-- C17 (sign safety): when `NextID` returns an identifier with a stored
timestamp `t` such that `0 <= t - 1288834974657 < 2^41`, the four operands of
the bitwise OR lie in the bit ranges `[22,62]`, `[17,21]`, `[12,16]` and
`[0,11]`: each is a multiple of the power of two of its lowest bit and is
below the power of two above its highest bit.  The identifier is their sum
`(t - epoch) * 2^22 + d * 2^17 + m * 2^12 + sequence`, a non-negative `int64`. -/
theorem C17_sign_safety (d m : Int) (g : Generator) (clock : Clock) (s : Step)
    (hg : Reachable d m g) (h : NextID g clock = some s) (he : s.err = none)
    (h0 : 0 ≤ s.gen.lastTime - TwitterEpoch) (h1 : s.gen.lastTime - TwitterEpoch < 2 ^ 41) :
    s.id = or64 (or64 (or64 (shl64 (sub64 s.gen.lastTime TwitterEpoch) TimestampShift)
      (shl64 d DatacenterIdShift)) (shl64 m MachineIdShift)) s.gen.sequence ∧
    (shl64 (sub64 s.gen.lastTime TwitterEpoch) TimestampShift =
        (s.gen.lastTime - TwitterEpoch) * 2 ^ 22 ∧
      0 ≤ (s.gen.lastTime - TwitterEpoch) * 2 ^ 22 ∧
      (s.gen.lastTime - TwitterEpoch) * 2 ^ 22 < 2 ^ 63) ∧
    (shl64 d DatacenterIdShift = d * 2 ^ 17 ∧ 0 ≤ d * 2 ^ 17 ∧ d * 2 ^ 17 < 2 ^ 22) ∧
    (shl64 m MachineIdShift = m * 2 ^ 12 ∧ 0 ≤ m * 2 ^ 12 ∧ m * 2 ^ 12 < 2 ^ 17) ∧
    (0 ≤ s.gen.sequence ∧ s.gen.sequence < 2 ^ 12) ∧
    s.id = (s.gen.lastTime - TwitterEpoch) * 2 ^ 22 + d * 2 ^ 17 + m * 2 ^ 12 + s.gen.sequence ∧
    0 ≤ s.id ∧ s.id < 2 ^ 63 := by
  have hi := Reachable_inv d m g hg
  have hd0 := hi.d0
  have hd := hi.d31
  have hm0 := hi.m0
  have hm := hi.m31
  obtain ⟨t, seq, hs, hq0, hq1, _, _, _⟩ := NextID_success g clock s h he
  have hid : s.id = packID t d m seq := by rw [hs, emit, hi.dc, hi.mc]
  have hseq : s.gen.sequence = seq := by rw [hs, emit]
  have htm : s.gen.lastTime = t := by rw [hs, emit]
  have e22 : TimestampShift = 22 := rfl
  have e17 : DatacenterIdShift = 17 := rfl
  have e12 : MachineIdShift = 12 := rfl
  have hE : TwitterEpoch = 1288834974657 := rfl
  rw [htm] at h0 h1
  rw [hseq, htm]
  rw [hE] at h0 h1
  have hw : wrap64 ((t - TwitterEpoch) * 4194304) = (t - TwitterEpoch) * 4194304 :=
    wrap64_eq _ (by unfold isInt64; rw [hE]; omega)
  have hsum := packID_eq t d m seq hd0 hd hm0 hm hq0 hq1
  rw [hw] at hsum
  have hA : shl64 (sub64 t TwitterEpoch) TimestampShift = (t - TwitterEpoch) * 2 ^ 22 := by
    rw [e22, shl64_22, sub64, wrap64_wrap64_mul, hw]; norm_num
  have hB : shl64 d DatacenterIdShift = d * 2 ^ 17 := by
    rw [e17, shl64_17 d hd0 hd]; norm_num
  have hC : shl64 m MachineIdShift = m * 2 ^ 12 := by
    rw [e12, shl64_12 m hm0 hm]; norm_num
  rw [hid, hsum]
  refine ⟨?_, ⟨hA, ?_, ?_⟩, ⟨hB, by omega, by omega⟩, ⟨hC, by omega, by omega⟩,
    ⟨hq0, by omega⟩, by norm_num, ?_, ?_⟩
  · rw [← hsum]; rfl
  · rw [hE]; omega
  · rw [hE]; omega
  · rw [hE]; omega
  · rw [hE]; omega

theorem C17_sign_safety_witness :
    NextID ⟨1, 1, 0, -1⟩ [1700000000000000000] =
      some ⟨1724551110456381440, none, ⟨1, 1, 0, 1700000000000⟩, []⟩ ∧
    (0 : Int) ≤ 1724551110456381440 ∧ (1724551110456381440 : Int) < 2 ^ 63 :=
  have h := C17_sign_safety 1 1 ⟨1, 1, 0, -1⟩ [1700000000000000000]
    ⟨1724551110456381440, none, ⟨1, 1, 0, 1700000000000⟩, []⟩ (Reachable.init rfl)
    (by decide) rfl (by decide) (by decide)
  ⟨by decide, h.2.2.2.2.2.2.1, h.2.2.2.2.2.2.2⟩

/-- C18 (per-millisecond budget), as amended: in any run of sequential `NextID`
calls on a generator freshly built by `NewGenerator d m`, over a clock whose
readings `r` all satisfy `r - 1288834974657 < 2^41`, the identifiers that
carry a millisecond timestamp `T` are those of the calls that stored `T`, at
most 4096 successful calls return identifiers carrying the same `T`, and when
`T` is not -1, the value `lastTime` starts with, the identifiers carrying `T`
carry the consecutive sequences 0, 1, 2, ... in the order of the calls. -/
theorem C18_per_millisecond_budget (d m T : Int) (g : Generator) (clock : Clock) (N : Nat)
    (hg : NewGenerator d m = .ok g) (hr : ∀ n ∈ clock, millis n - TwitterEpoch < 2 ^ 41) :
    withTimestamp T (successes (calls N g clock)) = atTime T (successes (calls N g clock)) ∧
    (withTimestamp T (successes (calls N g clock))).length ≤ 4096 ∧
    (T ≠ -1 →
      (withTimestamp T (successes (calls N g clock))).map (fun s => (ParseID s.id).sequence) =
        (List.range (withTimestamp T (successes (calls N g clock))).length).map
          (fun (i : Nat) => (i : Int))) := by
  have hreach : Reachable d m g := Reachable.init hg
  have hi := Reachable_inv d m g hreach
  obtain ⟨_, _, _, _, hgeq⟩ := NewGenerator_ok d m g hg
  have hlast : g.lastTime = -1 := by rw [hgeq]
  have hgs : g.sequence = 0 := by rw [hgeq]
  have hwt := withTimestamp_eq_atTime d m T g clock N hreach hr
  refine ⟨hwt, ?_⟩
  rw [hwt]
  obtain ⟨b1, b2⟩ := calls_budget d m T N g clock hi
  have hparse : (atTime T (successes (calls N g clock))).map (fun s => (ParseID s.id).sequence) =
      (atTime T (successes (calls N g clock))).map (fun s => s.gen.sequence) := by
    refine List.map_congr_left (fun s hs => ?_)
    have hs2 : s ∈ successes (calls N g clock) := (List.mem_filter.mp hs).1
    have hs3 := List.mem_filter.mp hs2
    obtain ⟨g2, c2, hi2, hn2⟩ := calls_mem d m N g clock s hi hs3.1
    exact (ParseID_NextID d m g2 c2 s hi2 hn2 (by simpa using hs3.2)).2.2.1
  rcases lt_or_le T g.lastTime with hlt | hle
  · rw [b1 hlt]
    simp
  · obtain ⟨c1, c2⟩ := b2 hle
    constructor
    · unfold startSeq at c2
      split at c2 <;> omega
    · intro hne
      have hst : startSeq g T = 0 := by
        unfold startSeq; rw [if_neg (by omega)]
      rw [hst] at c1
      rw [hparse, c1]
      exact List.map_congr_left (fun i _ => by simp)

theorem C18_per_millisecond_budget_witness :
    (∀ n ∈ [(1700000000000000000 : Int), 1700000000000000001, 1700000000001000000],
      millis n - TwitterEpoch < 2 ^ 41) ∧
    withTimestamp 1700000000000 (successes (calls 3 ⟨1, 1, 0, -1⟩
        [1700000000000000000, 1700000000000000001, 1700000000001000000])) =
      atTime 1700000000000 (successes (calls 3 ⟨1, 1, 0, -1⟩
        [1700000000000000000, 1700000000000000001, 1700000000001000000])) ∧
    (withTimestamp 1700000000000 (successes (calls 3 ⟨1, 1, 0, -1⟩
      [1700000000000000000, 1700000000000000001, 1700000000001000000]))).length ≤ 4096 ∧
    ((1700000000000 : Int) ≠ -1 →
      (withTimestamp 1700000000000 (successes (calls 3 ⟨1, 1, 0, -1⟩
        [1700000000000000000, 1700000000000000001, 1700000000001000000]))).map
          (fun s => (ParseID s.id).sequence) =
        (List.range (withTimestamp 1700000000000 (successes (calls 3 ⟨1, 1, 0, -1⟩
          [1700000000000000000, 1700000000000000001, 1700000000001000000]))).length).map
          (fun (i : Nat) => (i : Int))) :=
  have hr : ∀ n ∈ [(1700000000000000000 : Int), 1700000000000000001, 1700000000001000000],
      millis n - TwitterEpoch < 2 ^ 41 := by decide
  ⟨hr, C18_per_millisecond_budget 1 1 1700000000000 ⟨1, 1, 0, -1⟩
    [1700000000000000000, 1700000000000000001, 1700000000001000000] 3 rfl hr⟩

/-- C18 fails as stated.  On a fresh generator and a clock that shows the
millisecond -1, the value `lastTime` starts with, the two identifiers that
carry the timestamp -1 carry the sequences 1 and 2: they do not start at 0.
On a clock that shows the millisecond 1288834974657 twice and then, twice, the
millisecond `2^42` later, the four identifiers all carry the timestamp
1288834974657, with the sequences 0, 1, 0, 1; with 4096 readings of the first
millisecond and one of the second, 4097 identifiers carry that timestamp. -/
theorem C18_counterexample :
    NewGenerator 1 1 = .ok ⟨1, 1, 0, -1⟩ ∧
    millis (-1000000) = -1 ∧
    (calls 2 ⟨1, 1, 0, -1⟩ [-1000000, -1000000]).map (fun s => (s.id, s.err, s.gen.lastTime)) =
      [(-5405765689547812863, none, -1), (-5405765689547812862, none, -1)] ∧
    (withTimestamp (-1) (successes (calls 2 ⟨1, 1, 0, -1⟩ [-1000000, -1000000]))).map
      (fun s => (ParseID s.id).sequence) = [1, 2] ∧
    millis 1288834974657000000 = 1288834974657 ∧
    millis 5686881485761000000 = 1288834974657 + 2 ^ 42 ∧
    (calls 4 ⟨1, 1, 0, -1⟩ [1288834974657000000, 1288834974657000000, 5686881485761000000,
        5686881485761000000]).map (fun s => (s.id, s.err, s.gen.lastTime)) =
      [(135168, none, 1288834974657), (135169, none, 1288834974657),
       (135168, none, 5686881485761), (135169, none, 5686881485761)] ∧
    (withTimestamp 1288834974657 (successes (calls 4 ⟨1, 1, 0, -1⟩
      [1288834974657000000, 1288834974657000000, 5686881485761000000,
        5686881485761000000]))).map (fun s => (ParseID s.id).sequence) = [0, 1, 0, 1] ∧
    4096 < (withTimestamp TwitterEpoch (successes (calls 4097 ⟨1, 1, 0, -1⟩
      (List.replicate 4096 1288834974657000000 ++ [5686881485761000000])))).length :=
  ⟨rfl, by decide, by decide, by decide, by decide, by decide, by decide, by decide,
    count_past_range⟩

/-- C19 (batch generation), as amended: for every count `n >= 0`,
`IDUsecase.GenerateIDs` makes the `NextID` calls of a sequential run in order.
When all `n` calls return an identifier it returns, with a nil error, the slice
of exactly `n` identifiers whose i-th element is the result of the i-th call;
the slice is strictly increasing when every clock reading has a relative
timestamp in `[0, 2^41)`.  When the call of index `j` is the first that fails,
it returns at that call a nil slice, duration 0 and the error of that call. -/
theorem C19_batch_generation (d m : Int) (g : Generator) (clock : Clock) (n : Nat)
    (elapsed : Int) (hg : Reachable d m g) :
    ((calls n g clock).length = n → (∀ s ∈ calls n g clock, s.err = none) →
      IDUsecase.GenerateIDs (n : Int) elapsed g clock =
        .ret { ids := some ((calls n g clock).map (fun s => s.id))
               duration := elapsed
               err := none
               gen := (lastState g clock (calls n g clock)).1
               clock := (lastState g clock (calls n g clock)).2 } ∧
      ((calls n g clock).map (fun s => s.id)).length = n ∧
      (InRange clock → ((calls n g clock).map (fun s => s.id)).Pairwise (fun a b => a < b))) ∧
    (∀ (j : Nat) (s : Step) (e : Error), (calls n g clock)[j]? = some s → s.err = some e →
      (∀ i < j, ∀ s2, (calls n g clock)[i]? = some s2 → s2.err = none) →
      IDUsecase.GenerateIDs (n : Int) elapsed g clock =
        .ret { ids := none, duration := 0, err := some e, gen := s.gen, clock := s.clock }) := by
  have hcount : ¬ ((n : Int) < 0) := by omega
  have htoNat : (n : Int).toNat = n := Int.toNat_ofNat n
  constructor
  · intro hlen hall
    refine ⟨?_, by rw [List.length_map, hlen], fun hr => ?_⟩
    · unfold IDUsecase.GenerateIDs
      rw [if_neg hcount, htoNat,
        loop_success elapsed n 0 (List.replicate n 0) g clock hlen hall
          (by rw [List.length_replicate]; omega)]
      have hdrop : (List.replicate n (0 : Int)).drop (0 + n) = [] :=
        List.drop_eq_nil_of_le (by rw [List.length_replicate]; omega)
      rw [hdrop]
      simp
    · have h := calls_ids_increasing d m n g clock (Reachable_inv d m g hg) hr
      rw [successes_all _ hall] at h
      rw [List.pairwise_map]
      exact h
  · intro j s e hj he hprev
    unfold IDUsecase.GenerateIDs
    rw [if_neg hcount, htoNat]
    exact loop_failure elapsed j n 0 (List.replicate n 0) g clock s e hj he hprev

theorem C19_batch_generation_witness :
    IDUsecase.GenerateIDs 3 7 ⟨1, 1, 0, -1⟩
        [1700000000000000000, 1700000000000000001, 1700000000001000000, 5] =
      .ret { ids := some [1724551110456381440, 1724551110456381441, 1724551110460575744]
             duration := 7
             err := none
             gen := ⟨1, 1, 0, 1700000000001⟩
             clock := [5] } ∧
    IDUsecase.GenerateIDs 3 7 ⟨1, 1, 0, -1⟩
        [1700000000000000000, 1699999999990000000, 1700000000001000000, 5] =
      .ret { ids := none, duration := 0, err := some (.clockMovedBackwards 10),
             gen := ⟨1, 1, 0, 1700000000000⟩, clock := [1700000000001000000, 5] } :=
  ⟨((C19_batch_generation 1 1 ⟨1, 1, 0, -1⟩
      [1700000000000000000, 1700000000000000001, 1700000000001000000, 5] 3 7
      (Reachable.init rfl)).1 (by decide) (by decide)).1,
    (C19_batch_generation 1 1 ⟨1, 1, 0, -1⟩
      [1700000000000000000, 1699999999990000000, 1700000000001000000, 5] 3 7
      (Reachable.init rfl)).2 1
      ⟨0, some (.clockMovedBackwards 10), ⟨1, 1, 0, 1700000000000⟩, [1700000000001000000, 5]⟩
      (.clockMovedBackwards 10) (by decide) rfl (by decide)⟩

/-- C19 fails as stated.  When the clock goes from the last millisecond whose
relative timestamp fits 41 bits to the next one, both calls of a batch of two
return an identifier, and the second identifier is smaller than the first. -/
theorem C19_counterexample :
    NewGenerator 1 1 = .ok ⟨1, 1, 0, -1⟩ ∧
    millis 3487858230208000000 = TwitterEpoch + 2 ^ 41 - 1 ∧
    millis 3487858230209000000 = TwitterEpoch + 2 ^ 41 ∧
    IDUsecase.GenerateIDs 2 7 ⟨1, 1, 0, -1⟩ [3487858230208000000, 3487858230209000000] =
      .ret { ids := some [9223372036850716672, -9223372036854640640]
             duration := 7
             err := none
             gen := ⟨1, 1, 0, 3487858230209⟩
             clock := [] } ∧
    ¬ ((9223372036850716672 : Int) < -9223372036854640640) :=
  ⟨rfl, by decide, by decide, by decide, by decide⟩

/-- C20, the code at a failing input.  The generator has issued an identifier
at the millisecond 1700000000000 and the clock now shows 1699999999990.  The
one `NextID` call of a batch of one returns the clock-regression error,
`IDUsecase.GenerateIDs` returns the nil slice pointer with that error, and
`IDHandler.GenerateIDs` faults on `*ids` instead of returning. -/
theorem C20_handler_faults :
    NextID ⟨1, 1, 0, -1⟩ [1700000000000000000] =
      some ⟨1724551110456381440, none, ⟨1, 1, 0, 1700000000000⟩, []⟩ ∧
    NextID ⟨1, 1, 0, 1700000000000⟩ [1699999999990000000] =
      some ⟨0, some (.clockMovedBackwards 10), ⟨1, 1, 0, 1700000000000⟩, []⟩ ∧
    IDUsecase.GenerateIDs 1 5 ⟨1, 1, 0, 1700000000000⟩ [1699999999990000000] =
      .ret { ids := none, duration := 0, err := some (.clockMovedBackwards 10),
             gen := ⟨1, 1, 0, 1700000000000⟩, clock := [] } ∧
    IDHandler.GenerateIDs 1 5 ⟨1, 1, 0, 1700000000000⟩ [1699999999990000000] = .fault :=
  ⟨by decide, by decide, by decide, by decide⟩

end Snowflake
